import Mathlib

/-!
# mcp-go-example: the dispatcher, the SQLite tool backend and the SSE submit endpoint

A shallow embedding of `main.go`, `sqlite.go` and `mcpsse.go`.

* Go strings are Lean strings (sequences of Unicode scalars); the library
  functions the program calls (`strings.TrimSpace`, `strings.ToUpper`,
  `strings.HasPrefix`, `strings.Join`, `json.Marshal`, `fmt.Sprintf`) are
  written out as far as the program uses them.
* The database behind `database/sql` is a parameter: a state of any type with
  a `Query` and an `Exec` transition.
* A Go function that returns `(v, err)` returns an `Except`; a function that
  can also end in a run-time panic returns an `Outcome`.
* Channels are lists, a send appends at the end.
-/

set_option autoImplicit false

/-! ## Library functions -/

namespace unicode

/-- Go `unicode.IsSpace`: the runes with the White_Space property. -/
def IsSpace (r : Char) : Bool :=
  let n := r.toNat
  (9 ≤ n && n ≤ 13) || n == 0x20 || n == 0x85 || n == 0xA0 || n == 0x1680 ||
    (0x2000 ≤ n && n ≤ 0x200A) || n == 0x2028 || n == 0x2029 || n == 0x202F ||
    n == 0x205F || n == 0x3000

/-- Go `unicode.ToUpper`, tabulated for ASCII, for Latin-1 and for the two
runes above U+00FF whose upper case is an ASCII letter (dotless i and long s).
Every other rune above U+00FF is sent by Go to a rune above U+007F; the table
for those is not reproduced and they are left in place, which no comparison
with an ASCII constant can observe. -/
def ToUpper (r : Char) : Char :=
  let n := r.toNat
  if 0x61 ≤ n ∧ n ≤ 0x7A then Char.ofNat (n - 32)
  else if n = 0xB5 then Char.ofNat 0x39C
  else if 0xE0 ≤ n ∧ n ≤ 0xFE ∧ n ≠ 0xF7 then Char.ofNat (n - 32)
  else if n = 0xFF then Char.ofNat 0x178
  else if n = 0x131 then 'I'
  else if n = 0x17F then 'S'
  else r

end unicode

namespace strings

/-- Go `strings.TrimSpace`: drops the leading and the trailing white space. -/
def TrimSpace (s : String) : String :=
  ⟨(s.data.dropWhile unicode.IsSpace).rdropWhile unicode.IsSpace⟩

/-- Go `strings.ToUpper`: maps every rune to its upper case. -/
def ToUpper (s : String) : String := ⟨s.data.map unicode.ToUpper⟩

/-- Go `strings.HasPrefix`. -/
def HasPrefix (s pre : String) : Bool := pre.data.isPrefixOf s.data

/-- Go `strings.Join`. -/
def Join : List String → String → String
  | [], _ => ""
  | [a], _ => a
  | a :: b :: rest, sep => a ++ sep ++ Join (b :: rest) sep

end strings

namespace fmt

/-- The verb `%d` of `fmt.Sprintf` on an integer. -/
def formatInt (n : Int) : String :=
  match n with
  | Int.ofNat k => Nat.repr k
  | Int.negSucc k => "-" ++ Nat.repr (k + 1)

end fmt

/-! ## Values -/

/-- Go `any`, for the JSON-shaped values the program receives and builds.
A `number` stands for a decoded JSON number; the program never looks inside
one. A `map` lists its entries in the order of the source literal. -/
inductive Any where
  | null
  | bool (b : Bool)
  | number (n : Int)
  | str (s : String)
  | list (xs : List Any)
  | map (kvs : List (String × Any))

namespace sql

/-- What `rows.Scan` stores in a `*any`: the five storage classes of the store,
and the `time.Time` the driver yields for a column declared DATE, DATETIME or
TIMESTAMP. A float64 is carried as the text `encoding/json` writes for it,
`none` for an infinity, which `encoding/json` refuses. A blob is a list of
bytes (each read modulo 256); the driver hands an empty blob over as the nil
slice. A time is carried as the quoted text its `MarshalJSON` writes, `none`
when that method fails (a year outside 0..9999). -/
inductive Value where
  | null
  | integer (n : Int)
  | real (text : Option String)
  | text (s : String)
  | blob (bytes : List Nat)
  | time (text : Option String)
  deriving DecidableEq, Repr

/-- The cursor `db.Query` hands back: what `rows.Columns()` answers and the
rows that `rows.Next()` steps through before it answers false. -/
structure Rows where
  Columns : Except String (List String)
  rows : List (List Value)

/-- The `sql.Result` that `db.Exec` hands back with a nil error. For a text
that holds no statement (the empty string, white space, a comment) the driver
returns no result of its own, and `RowsAffected()` on the wrapper dereferences
nil; otherwise `RowsAffected()` answers an error or a count. -/
inductive Result where
  | nil
  | rows (affected : Except String Int)

/-- The handle `*sql.DB` over a store whose states are `σ`. `Exec` answers an
error or a `Result`. -/
structure DB (σ : Type) where
  Query : σ → String → List Value → Except String Rows × σ
  Exec : σ → String → List Value → Except String Result × σ

end sql

/-- Go `map[string]any` as `ExecuteQuery` fills it: one entry per key. -/
structure Row where
  entries : List (String × sql.Value)
  deriving DecidableEq, Repr

namespace Row

/-- The map `make(map[string]any)`. -/
def empty : Row := ⟨[]⟩

/-- The assignment `row[k] = v`: overwrites the entry of `k` when there is one. -/
def set (m : Row) (k : String) (v : sql.Value) : Row :=
  if m.entries.any (fun e => e.1 == k) then
    ⟨m.entries.map (fun e => if e.1 == k then (k, v) else e)⟩
  else ⟨m.entries ++ [(k, v)]⟩

/-- The lookup `row[k]`, `none` when the key is absent. -/
def get (m : Row) (k : String) : Option sql.Value := m.entries.lookup k

end Row

/-! ## encoding/json on query results -/

namespace base64

/-- The alphabet of `base64.StdEncoding`. -/
def alphabet : List Char :=
  "ABCDEFGHIJKLMNOPQRSTUVWXYZabcdefghijklmnopqrstuvwxyz0123456789+/".data

/-- The character of a six-bit group. -/
def digit (n : Nat) : Char := alphabet.getD n '='

/-- The padded standard encoding of a byte list, which `encoding/json` uses
for `[]byte`. -/
def encode : List Nat → List Char
  | [] => []
  | [a] => [digit (a % 256 / 4), digit (a % 4 * 16), '=', '=']
  | [a, b] =>
    [digit (a % 256 / 4), digit (a % 4 * 16 + b % 256 / 16), digit (b % 16 * 4), '=']
  | a :: b :: c :: rest =>
    [digit (a % 256 / 4), digit (a % 4 * 16 + b % 256 / 16),
      digit (b % 16 * 4 + c % 256 / 64), digit (c % 64)] ++ encode rest

end base64

namespace json

/-- A lower-case hexadecimal digit. -/
def hex (n : Nat) : Char := "0123456789abcdef".data.getD n '0'

/-- The escape `encoding/json` writes for one rune of a string (HTML escaping
on, as `json.Marshal` has it; the short forms for backspace and form feed are
those of Go 1.22 and later). -/
def escapeRune (c : Char) : List Char :=
  let n := c.toNat
  if c = '"' then ['\\', '"']
  else if c = '\\' then ['\\', '\\']
  else if n = 8 then ['\\', 'b']
  else if n = 12 then ['\\', 'f']
  else if c = '\n' then ['\\', 'n']
  else if c = '\r' then ['\\', 'r']
  else if c = '\t' then ['\\', 't']
  else if n < 0x20 then ['\\', 'u', '0', '0', hex (n / 16), hex (n % 16)]
  else if c = '<' then "\\u003c".data
  else if c = '>' then "\\u003e".data
  else if c = '&' then "\\u0026".data
  else if n = 0x2028 then "\\u2028".data
  else if n = 0x2029 then "\\u2029".data
  else [c]

/-- A string as a JSON string literal. -/
def quote (s : String) : String := ⟨'"' :: (s.data.flatMap escapeRune ++ ['"'])⟩

/-- One scanned value as JSON text; `none` is the encoder's error. An empty
blob is the nil `[]byte`, which is written `null`. -/
def marshalValue : sql.Value → Option String
  | .null => some "null"
  | .integer n => some (fmt.formatInt n)
  | .real t => t
  | .text s => some (quote s)
  | .blob [] => some "null"
  | .blob (b :: bs) => some ⟨'"' :: (base64.encode (b :: bs) ++ ['"'])⟩
  | .time t => t

/-- Whether `encoding/json` can write the value: every value but an infinite
float and a time that its `MarshalJSON` refuses. -/
def encodable : sql.Value → Bool
  | .real none => false
  | .time none => false
  | _ => true

/-- Go's string order (byte-wise on UTF-8, which is the order of the code
points). -/
def ltBytes : List Char → List Char → Bool
  | [], [] => false
  | [], _ :: _ => true
  | _ :: _, [] => false
  | a :: as, b :: bs => a.toNat < b.toNat || (a.toNat == b.toNat && ltBytes as bs)

/-- One step of sorting map entries by key. -/
def insertKey (e : String × sql.Value) :
    List (String × sql.Value) → List (String × sql.Value)
  | [] => [e]
  | x :: xs => if ltBytes x.1.data e.1.data then x :: insertKey e xs else e :: x :: xs

/-- The entries of a map in the order `encoding/json` writes them: sorted by
key. -/
def sortKeys (m : Row) : List (String × sql.Value) := m.entries.foldr insertKey []

/-- The members `"key":value` of an object. -/
def marshalMembers : List (String × sql.Value) → Option (List String)
  | [] => some []
  | (k, v) :: rest =>
    match marshalValue v, marshalMembers rest with
    | some t, some ts => some ((quote k ++ ":" ++ t) :: ts)
    | _, _ => none

/-- Items separated by commas. -/
def joinComma : List String → String
  | [] => ""
  | [a] => a
  | a :: b :: rest => a ++ "," ++ joinComma (b :: rest)

/-- The call `json.Marshal(row)` on one `map[string]any`. -/
def marshalRow (m : Row) : Option String :=
  (marshalMembers (sortKeys m)).map fun ts => "\x7b" ++ joinComma ts ++ "\x7d"

/-- The elements of an array of rows. -/
def marshalRowList : List Row → Option (List String)
  | [] => some []
  | m :: rest =>
    match marshalRow m, marshalRowList rest with
    | some t, some ts => some (t :: ts)
    | _, _ => none

/-- The call `json.Marshal(results)` on the `[]map[string]any` that
`ExecuteQuery` returns. That slice is declared with `var` and only ever
appended to, so it is empty exactly when it is nil, and a nil slice is
written `null`. -/
def marshalRows (rs : List Row) : Option String :=
  match rs with
  | [] => some "null"
  | _ :: _ => (marshalRowList rs).map fun ts => "[" ++ joinComma ts ++ "]"

/-- The conversion `string(js)` after `js, _ := json.Marshal(..)`: the bytes
are nil, hence the text empty, when the encoder failed. -/
def text (js : Option String) : String := js.getD ""

end json

/-! ## sqlite.go -/

/-- How a call of a Go function ends: with a value and a nil error, with an
error, or in a run-time panic, which unwinds the goroutine and ends the
process. -/
inductive Outcome (α : Type) where
  | ok (v : α)
  | err (e : String)
  | panic (e : String)

/-- One statement handed to the database handle. -/
inductive Statement where
  | query (q : String) (params : List sql.Value)
  | exec (q : String) (params : List sql.Value)
  deriving DecidableEq, Repr

/-- The struct `SQLite`. The field `db` is the state of the store behind the
handle. The field `executed` is not in the source: it records, oldest first,
every statement the methods hand to the handle, so that "nothing was executed"
can be said. -/
structure SQLite (σ : Type) where
  db : σ
  dbPath : String
  executed : List Statement

/-- The result `map[string]any` of `Call`, entries in the order of the
source literal. -/
abbrev Object := List (String × Any)

namespace SQLite

variable {σ : Type}

/-- The body of the loop `for i, col := range columns` in `ExecuteQuery`:
`row[col] = values[i]` for each column, left to right. -/
def fillRow (columns : List String) (values : List sql.Value) : Row :=
  (columns.zip values).foldl (fun row cv => row.set cv.1 cv.2) Row.empty

/-- The loop `for rows.Next()` of `ExecuteQuery`. `rows.Scan` into
`len(columns)` destinations of type `*any` fails exactly when the row at hand
has another number of values. -/
def scanLoop (columns : List String) : List (List sql.Value) → List Row →
    Except String (List Row)
  | [], results => .ok results
  | src :: rest, results =>
    if src.length ≠ columns.length then
      .error ("row scan error: sql: expected " ++ Nat.repr src.length ++
        " destination arguments in Scan, not " ++ Nat.repr columns.length)
    else scanLoop columns rest (results ++ [fillRow columns src])

/-- The method `ExecuteQuery`. -/
def ExecuteQuery (D : sql.DB σ) (s : SQLite σ) (query : String)
    (params : List sql.Value) : Except String (List Row) × SQLite σ :=
  let s1 : SQLite σ :=
    { s with db := (D.Query s.db query params).2,
             executed := s.executed ++ [Statement.query query params] }
  match (D.Query s.db query params).1 with
  | .error e => (.error ("query execution error: " ++ e), s1)
  | .ok rows =>
    match rows.Columns with
    | .error e => (.error ("failed to get columns: " ++ e), s1)
    | .ok columns => (scanLoop columns rows.rows [], s1)

/-- The method `ExecuteWriteQuery`. The call `result.RowsAffected()` has no
guard, so it panics on the result of a text that holds no statement. -/
def ExecuteWriteQuery (D : sql.DB σ) (s : SQLite σ) (query : String)
    (params : List sql.Value) : Outcome Int × SQLite σ :=
  let s1 : SQLite σ :=
    { s with db := (D.Exec s.db query params).2,
             executed := s.executed ++ [Statement.exec query params] }
  match (D.Exec s.db query params).1 with
  | .error e => (.err ("write query execution error: " ++ e), s1)
  | .ok result =>
    match result with
    | .nil =>
      (.panic "runtime error: invalid memory address or nil pointer dereference", s1)
    | .rows (.error e) => (.err ("failed to get affected rows: " ++ e), s1)
    | .rows (.ok affected) => (.ok affected, s1)

/-- The dynamic type the run time names when an assertion on an `any` fails;
an absent key and a NULL are both the nil interface. -/
def dynamicType : Option sql.Value → String
  | none => "nil"
  | some .null => "nil"
  | some (.integer _) => "int64"
  | some (.real _) => "float64"
  | some (.text _) => "string"
  | some (.blob _) => "[]uint8"
  | some (.time _) => "time.Time"

/-- The loop of `ListTables`: `tables = append(tables, result["name"].(string))`.
The assertion has no `ok` result, so a name that is not a string panics. -/
def tableNames : List Row → List String → Outcome (List String)
  | [], tables => .ok tables
  | result :: rest, tables =>
    match result.get "name" with
    | some (.text name) => tableNames rest (tables ++ [name])
    | v => .panic ("interface conversion: interface \x7b\x7d is " ++ dynamicType v ++
        ", not string")

/-- The method `ListTables`. -/
def ListTables (D : sql.DB σ) (s : SQLite σ) : Outcome (List String) × SQLite σ :=
  match ExecuteQuery D s "SELECT name FROM sqlite_master WHERE type='table'" [] with
  | (.error e, s1) => (.err e, s1)
  | (.ok results, s1) => (tableNames results [], s1)

/-- The method `DescribeTable`. -/
def DescribeTable (D : sql.DB σ) (s : SQLite σ) (table : String) :
    Except String String × SQLite σ :=
  match ExecuteQuery D s ("PRAGMA table_info(" ++ table ++ ")") [] with
  | (.error e, s1) => (.error e, s1)
  | (.ok [], s1) => (.ok "", s1)
  | (.ok (first :: _), s1) => (.ok (json.text (json.marshalRow first)), s1)

/-- The wrapper `{"content": [{"type": "text", "text": t}]}` that three of
the operations return. -/
def textContent (t : String) : Object :=
  [("content", Any.list [Any.map [("type", Any.str "text"), ("text", Any.str t)]])]

/-- The method `Call`. -/
def Call (D : sql.DB σ) (s : SQLite σ) (name query : String) :
    Outcome Object × SQLite σ :=
  if name = "read-query" then
    if !strings.HasPrefix (strings.ToUpper (strings.TrimSpace query)) "SELECT" then
      (.err "only SELECT queries are allowed for read-query", s)
    else
      match ExecuteQuery D s query [] with
      | (.error e, s1) => (.err e, s1)
      | (.ok results, s1) => (.ok (textContent (json.text (json.marshalRows results))), s1)
  else if name = "write-query" then
    if strings.HasPrefix (strings.ToUpper (strings.TrimSpace query)) "SELECT" then
      (.err "SELECT queries are not allowed for write-query", s)
    else
      match ExecuteWriteQuery D s query [] with
      | (.err e, s1) => (.err e, s1)
      | (.panic e, s1) => (.panic e, s1)
      | (.ok affected, s1) =>
        (.ok [("content", Any.str ("Affected rows: " ++ fmt.formatInt affected))], s1)
  else if name = "create-table" then
    if !strings.HasPrefix (strings.ToUpper (strings.TrimSpace query)) "CREATE TABLE" then
      (.err "only CREATE TABLE statements are allowed", s)
    else
      match ExecuteWriteQuery D s query [] with
      | (.err e, s1) => (.err e, s1)
      | (.panic e, s1) => (.panic e, s1)
      | (.ok _, s1) => (.ok [("content", Any.str "Table created successfully")], s1)
  else if name = "list-tables" then
    match ListTables D s with
    | (.err e, s1) => (.err e, s1)
    | (.panic e, s1) => (.panic e, s1)
    | (.ok tables, s1) => (.ok (textContent (strings.Join tables ", ")), s1)
  else if name = "describe-table" then
    match DescribeTable D s query with
    | (.error e, s1) => (.err e, s1)
    | (.ok description, s1) => (.ok (textContent description), s1)
  else (.err ("unknown call: " ++ name), s)

end SQLite

/-! ## The message types -/

/-- Modelled from the spec: the identifier of a request, an optional scalar
(the declaration of the message types is not among the source files). -/
inductive RequestID where
  | absent
  | number (n : Int)
  | text (s : String)
  deriving DecidableEq, Repr

/-- Modelled from the spec: the parameters of a request, a name string plus
an open mapping from string keys to JSON values; the field names are those
`main.go` reads (`msg.Params.Name`, `msg.Params.Args`). -/
structure Params where
  Name : String
  Args : List (String × Any)

/-- Modelled from the spec: the request envelope; the field names are those
`main.go` reads (`msg.ID`, `msg.Method`, `msg.Params`). -/
structure JSONRPCMessage where
  JSONRPC : String
  ID : RequestID
  Method : String
  Params : Params

/-- Modelled from the spec: the response envelope; the field names are those
of the literals in `main.go`. -/
structure JSONRPCResponse where
  JSONRPC : String
  ID : RequestID
  Result : Any

/-- The expression `v, _ := args[key].(string)`: the string under the key,
the empty string when the key is absent or holds another kind of value. -/
def stringArg (args : List (String × Any)) (key : String) : String :=
  match args.lookup key with
  | some (Any.str s) => s
  | _ => ""

/-! ## main.go: the dispatcher -/

/-- What one iteration of the loop `for msg := range server.ReadChannel()`
leaves behind: the note log, the backend, the responses it sent on the write
channel (oldest first), and whether the goroutine is still running (false
after a run-time panic). -/
structure Turn (σ : Type) where
  insights : List String
  db : SQLite σ
  replies : List JSONRPCResponse
  alive : Bool

namespace main

variable {σ : Type}

/-- The result of `initialize`. -/
def initializeResult : Any :=
  Any.map [("protocolVersion", Any.str "2024-11-05"),
    ("capabilities", Any.map [("experimental", Any.map []),
      ("prompts", Any.map [("listChanged", Any.bool false)]),
      ("resources", Any.map [("subscribe", Any.bool false), ("listChanged", Any.bool false)]),
      ("tools", Any.map [("listChanged", Any.bool false)])]),
    ("serverInfo", Any.map [("name", Any.str "sqlite"), ("version", Any.str "0.1.0")])]

/-- The result of `prompts/list`. -/
def promptsListResult : Any :=
  Any.map [("prompts", Any.list [Any.map [("name", Any.str "mcp-demo"),
    ("description", Any.str ("A prompt to seed the database with initial data and " ++
      "demonstrate what you can do with an SQLite MCP Server + Claude")),
    ("arguments", Any.list [Any.map [("name", Any.str "topic"),
      ("description", Any.str "Topic to seed the database with initial data"),
      ("required", Any.bool true)]])]])]

/-- The result of `prompts/get`. -/
def promptsGetResult (topic : String) : Any :=
  Any.map [("description", Any.str "This is a test prompt"),
    ("messages", Any.list [Any.map [("role", Any.str "user"),
      ("content", Any.map [("type", Any.str "text"),
        ("text", Any.str ("The assistants goal is to walkthrough an informative demo " ++
          "of MCP. topic: " ++ topic))])]])]

/-- The result of `resources/list`. -/
def resourcesListResult : Any :=
  Any.map [("resources", Any.list [Any.map [("uri", Any.str "memo://insights"),
    ("name", Any.str "Business Insights Memo"),
    ("description", Any.str "A living document of discovered business insights"),
    ("mimeType", Any.str "text/plain")]])]

/-- The result of `resources/read`. -/
def resourcesReadResult (insights : List String) : Any :=
  Any.map [("contents", Any.list [Any.map [("uri", Any.str "memo://insights"),
    ("mimeType", Any.str "text/plain"),
    ("text", Any.str (strings.Join insights "\n"))]])]

/-- The result of `tools/call` for `append-insight`. -/
def appendInsightResult (insight : String) : Any :=
  Any.map [("content", Any.list [Any.map [("type", Any.str "text"),
    ("text", Any.str insight)]])]

/-- The literal `JSONRPCResponse{JSONRPC: "2.0", ID: id, Result: result}`. -/
def response (id : RequestID) (result : Any) : JSONRPCResponse :=
  { JSONRPC := "2.0", ID := id, Result := result }

/-- The body of the loop in `main`, for one message. `toolsjson` is the
response that `json.Unmarshal(toolsjson, &resp)` leaves in `resp` (the file
`tools.json` is embedded at build time). -/
def dispatch (D : sql.DB σ) (toolsjson : JSONRPCResponse) (insights : List String)
    (db : SQLite σ) (msg : JSONRPCMessage) : Turn σ :=
  if strings.HasPrefix msg.Method "notifications/" then ⟨insights, db, [], true⟩
  else if msg.Method = "ping" then
    ⟨insights, db, [response msg.ID (Any.map [])], true⟩
  else if msg.Method = "initialize" then
    ⟨insights, db, [response msg.ID initializeResult], true⟩
  else if msg.Method = "tools/list" then
    ⟨insights, db, [{ toolsjson with ID := msg.ID }], true⟩
  else if msg.Method = "prompts/list" then
    ⟨insights, db, [response msg.ID promptsListResult], true⟩
  else if msg.Method = "prompts/get" then
    ⟨insights, db, [response msg.ID (promptsGetResult (stringArg msg.Params.Args "topic"))],
      true⟩
  else if msg.Method = "resources/list" then
    ⟨insights, db, [response msg.ID resourcesListResult], true⟩
  else if msg.Method = "resources/read" then
    ⟨insights, db, [response msg.ID (resourcesReadResult insights)], true⟩
  else if msg.Method = "resources/write" then ⟨insights, db, [], true⟩
  else if msg.Method = "tools/call" then
    if msg.Params.Name = "append-insight" then
      ⟨insights ++ [stringArg msg.Params.Args "insight"], db,
        [response msg.ID (appendInsightResult (stringArg msg.Params.Args "insight"))], true⟩
    else
      match SQLite.Call D db msg.Params.Name (stringArg msg.Params.Args "query") with
      | (.err _, db1) => ⟨insights, db1, [], true⟩
      | (.panic _, db1) => ⟨insights, db1, [], false⟩
      | (.ok results, db1) => ⟨insights, db1, [response msg.ID (Any.map results)], true⟩
  else ⟨insights, db, [], true⟩

/-- The state of the dispatcher goroutine between two messages: the note log,
the backend, the write channel (oldest response first) and whether the
goroutine is still running. -/
structure Hub (σ : Type) where
  insights : List String
  db : SQLite σ
  writeCh : List JSONRPCResponse
  alive : Bool

/-- The state when the goroutine starts: `insights = []string` with no
element, the backend as given, nothing on the write channel. -/
def start (db : SQLite σ) : Hub σ := ⟨[], db, [], true⟩

/-- One message taken from the read channel: dispatched when the goroutine
still runs, its responses appended to the write channel. -/
def step (D : sql.DB σ) (toolsjson : JSONRPCResponse) (h : Hub σ)
    (msg : JSONRPCMessage) : Hub σ :=
  if h.alive then
    let t := dispatch D toolsjson h.insights h.db msg
    ⟨t.insights, t.db, h.writeCh ++ t.replies, t.alive⟩
  else h

/-- The loop `for msg := range server.ReadChannel()` over the messages in the
order they leave the read channel. -/
def loop (D : sql.DB σ) (toolsjson : JSONRPCResponse) (h : Hub σ)
    (msgs : List JSONRPCMessage) : Hub σ :=
  msgs.foldl (step D toolsjson) h

/-- The requests among `msgs` for which the loop sends a response, in the
order they arrived. -/
def answered (D : sql.DB σ) (toolsjson : JSONRPCResponse) :
    Hub σ → List JSONRPCMessage → List JSONRPCMessage
  | _, [] => []
  | h, msg :: rest =>
    if (step D toolsjson h msg).writeCh.length = h.writeCh.length then
      answered D toolsjson (step D toolsjson h msg) rest
    else msg :: answered D toolsjson (step D toolsjson h msg) rest

end main

/-! ## mcpsse.go: the submit endpoint -/

namespace http

/-- The constant `http.StatusAccepted`. -/
def StatusAccepted : Nat := 202

/-- The constant `http.StatusBadRequest`. -/
def StatusBadRequest : Nat := 400

/-- The constant `http.StatusMethodNotAllowed`. -/
def StatusMethodNotAllowed : Nat := 405

/-- What `HandleMessage` reads of a `*http.Request`: the method, the query
values of the URL and the body. -/
structure Request where
  Method : String
  Query : List (String × List String)
  Body : String

/-- The method `url.Values.Get`: the first value of the key, the empty string
when there is none. -/
def Request.queryGet (r : Request) (key : String) : String :=
  match r.Query.lookup key with
  | some (v :: _) => v
  | _ => ""

/-- What the handler writes to the `http.ResponseWriter`. -/
structure Reply where
  status : Nat
  body : String
  deriving DecidableEq, Repr

/-- The function `http.Error`. -/
def Error (msg : String) (code : Nat) : Reply := ⟨code, msg ++ "\n"⟩

end http

/-- The libraries `HandleMessage` calls: whether `uuid.Parse` accepts a
string, and what `json.NewDecoder(body).Decode(&message)` yields. -/
structure Codec where
  uuidParse : String → Bool
  decode : String → Except String JSONRPCMessage

/-- The struct `SSEServer`, its two channels as queues (oldest first). -/
structure SSEServer where
  readCh : List JSONRPCMessage
  writeCh : List JSONRPCResponse

/-- The method `HandleMessage`; the send `s.readCh <- message` is taken when
it completes. -/
def SSEServer.HandleMessage (C : Codec) (s : SSEServer) (r : http.Request) :
    http.Reply × SSEServer :=
  if r.Method ≠ "POST" then (http.Error "Method not allowed" http.StatusMethodNotAllowed, s)
  else if r.queryGet "session_id" = "" then
    (http.Error "session_id is required" http.StatusBadRequest, s)
  else if C.uuidParse (r.queryGet "session_id") = false then
    (http.Error "Invalid session ID" http.StatusBadRequest, s)
  else
    match C.decode r.Body with
    | .error _ => (http.Error "Could not parse message" http.StatusBadRequest, s)
    | .ok message => (⟨http.StatusAccepted, ""⟩, { s with readCh := s.readCh ++ [message] })

/-! ## Reading results, and the statements the theorems compare with -/

namespace Any

/-- The value under a key of a map. -/
def field (k : String) : Any → Option Any
  | Any.map kvs => kvs.lookup k
  | _ => none

/-- The first element of a list. -/
def first : Any → Option Any
  | Any.list (x :: _) => some x
  | _ => none

/-- The string a value is, if it is one. -/
def asString : Any → Option String
  | Any.str s => some s
  | _ => none

end Any

/-- The text `contents[0].text` of the result of `resources/read`. -/
def resourceText (r : JSONRPCResponse) : Option String :=
  ((((r.Result.field "contents").bind Any.first).bind (Any.field "text")).bind Any.asString)

/-- The gate as the specification words it: the statement, with its leading
white space removed and its letters put in upper case (letter case ignored the
way `strings.ToUpper` normalises it), starts with the keyword. -/
def beginsWith (q keyword : String) : Bool :=
  strings.HasPrefix (strings.ToUpper ⟨q.data.dropWhile unicode.IsSpace⟩) keyword

/-- Whether a request is a `tools/call` named `append-insight`. -/
def isAppendInsight (msg : JSONRPCMessage) : Bool :=
  msg.Method = "tools/call" && msg.Params.Name = "append-insight"

/-- The `insight` argument of a request, when it carries one that is a
string. -/
def insightArgument (msg : JSONRPCMessage) : Option String :=
  match msg.Params.Args.lookup "insight" with
  | some (Any.str s) => some s
  | _ => none

/-- The note text as the specification words it: the newline join of the
`insight` arguments of the `append-insight` calls among the earlier
requests. -/
def joinedInsightArguments (earlier : List JSONRPCMessage) : String :=
  strings.Join ((earlier.filter isAppendInsight).filterMap insightArgument) "\n"

/-- The notes the `append-insight` calls among the earlier requests append:
for each call its `insight` argument, the empty string when the argument is
absent or not a string. -/
def appendedNotes (earlier : List JSONRPCMessage) : List String :=
  (earlier.filter isAppendInsight).map fun msg => stringArg msg.Params.Args "insight"

/-- The value of the last column named `name` in a row, `none` when no column
has that name. -/
def lastValue (columns : List String) (values : List sql.Value) (name : String) :
    Option sql.Value :=
  (columns.zip values).reverse.lookup name

/-! ## Concrete stores and requests -/

/-- The catalog query of `ListTables`. -/
def catalogQuery : String := "SELECT name FROM sqlite_master WHERE type='table'"

/-- The answers of the store on the database of `sqlite_test.go`: the table
`test_table (id INTEGER PRIMARY KEY, name TEXT NOT NULL)` with the rows
`test1` and `test2`; one query names two result columns alike, one yields an
infinite float, and the empty text, which holds no statement, is executed
with no result. -/
def testStore : sql.DB Unit where
  Query := fun _ q _ =>
    if q = "SELECT * FROM test_table" then
      (.ok ⟨.ok ["id", "name"],
        [[.integer 1, .text "test1"], [.integer 2, .text "test2"]]⟩, ())
    else if q = "SELECT * FROM test_table WHERE id > 2" then
      (.ok ⟨.ok ["id", "name"], []⟩, ())
    else if q = "PRAGMA table_info(test_table)" then
      (.ok ⟨.ok ["cid", "name", "type", "notnull", "dflt_value", "pk"],
        [[.integer 0, .text "id", .text "INTEGER", .integer 0, .null, .integer 1],
         [.integer 1, .text "name", .text "TEXT", .integer 1, .null, .integer 0]]⟩, ())
    else if q = "SELECT 1 AS a, 2 AS a" then
      (.ok ⟨.ok ["a", "a"], [[.integer 1, .integer 2]]⟩, ())
    else if q = "SELECT 9e999 AS x" then
      (.ok ⟨.ok ["x"], [[.real none]]⟩, ())
    else if q = catalogQuery then
      (.ok ⟨.ok ["name"], [[.text "test_table"]]⟩, ())
    else (.error "SQL logic error", ())
  Exec := fun _ q _ =>
    if q = "" then (.ok sql.Result.nil, ())
    else if q = "CREATE TABLE t (id INTEGER PRIMARY KEY)" then
      (.ok (sql.Result.rows (.ok 0)), ())
    else if q = "INSERT INTO test_table (name) VALUES ('x')" then
      (.ok (sql.Result.rows (.ok 1)), ())
    else (.error "SQL logic error", ())

/-- The answers of a store whose catalog holds a table row with a name stored
as a blob (as after `UPDATE sqlite_master SET name = CAST(name AS BLOB)` under
`PRAGMA writable_schema=ON`). -/
def blobNameStore : sql.DB Unit where
  Query := fun _ q _ =>
    if q = catalogQuery then (.ok ⟨.ok ["name"], [[.blob [116]]]⟩, ())
    else (.error "SQL logic error", ())
  Exec := fun _ _ _ => (.error "SQL logic error", ())

/-- The backend right after `NewSQLite`. -/
def freshSQLite : SQLite Unit := ⟨(), "/tmp/test.db", []⟩

/-- An empty tool catalog. -/
def noTools : JSONRPCResponse := ⟨"2.0", RequestID.absent, Any.map [("tools", Any.list [])]⟩

/-- A request with the given identifier, method, tool name and arguments. -/
def request (id : Int) (method name : String) (args : List (String × Any)) :
    JSONRPCMessage :=
  ⟨"2.0", RequestID.number id, method, ⟨name, args⟩⟩

/-- The methods of the routing table in `main`. -/
def routingTable : List String :=
  ["ping", "initialize", "tools/list", "prompts/list", "prompts/get", "resources/list",
    "resources/read", "resources/write", "tools/call"]

/-- The cases in which an iteration is to send nothing: a notification,
`resources/write`, a method outside the routing table, or a `tools/call` for
another tool than `append-insight` on which `Call` returns an error. -/
def silent {σ : Type} (D : sql.DB σ) (db : SQLite σ) (msg : JSONRPCMessage) : Prop :=
  strings.HasPrefix msg.Method "notifications/" = true ∨ msg.Method = "resources/write" ∨
    msg.Method ∉ routingTable ∨
    (msg.Method = "tools/call" ∧ msg.Params.Name ≠ "append-insight" ∧
      ∃ e, (SQLite.Call D db msg.Params.Name (stringArg msg.Params.Args "query")).1 =
        Outcome.err e)

/-! ## The statement gates of `Call` -/

/-- White space has no other upper case. -/
theorem unicode.ToUpper_of_IsSpace (c : Char) (h : unicode.IsSpace c = true) :
    unicode.ToUpper c = c := by
  simp only [unicode.IsSpace, Bool.or_eq_true, Bool.and_eq_true, decide_eq_true_eq,
    beq_iff_eq] at h
  unfold unicode.ToUpper
  simp only
  split_ifs <;> first | rfl | omega

/-- Trailing trimming keeps a prefix that ends in a rune outside the trimmed
class. -/
theorem prefix_rdropWhile_append {α : Type} (p : α → Bool) (a b : List α)
    (ha : a ≠ []) (hlast : p (a.getLast ha) = false) :
    a <+: (a ++ b).rdropWhile p := by
  induction b using List.reverseRecOn with
  | nil =>
    have : List.rdropWhile p a = a :=
      List.rdropWhile_eq_self_iff.mpr (fun _ => by simp [hlast])
    simp [this]
  | append_singleton b x ih =>
    rw [← List.append_assoc, List.rdropWhile_concat]
    split
    · exact ih
    · exact List.prefix_append a (b ++ [x]) |>.trans (by simp)

/-- Trimming the trailing white space as well does not change whether the
upper-cased statement starts with a keyword that ends in a rune that is not
white space. -/
theorem strings.HasPrefix_TrimSpace (q keyword : String) (hne : keyword.data ≠ [])
    (hlast : unicode.IsSpace (keyword.data.getLast hne) = false) :
    strings.HasPrefix (strings.ToUpper (strings.TrimSpace q)) keyword =
      beginsWith q keyword := by
  have key : keyword.data <+:
        ((q.data.dropWhile unicode.IsSpace).rdropWhile unicode.IsSpace).map unicode.ToUpper ↔
      keyword.data <+: (q.data.dropWhile unicode.IsSpace).map unicode.ToUpper := by
    constructor
    · intro h
      exact h.trans (List.IsPrefix.map _ (List.rdropWhile_prefix _ _))
    · rintro ⟨t, ht⟩
      obtain ⟨a, b, hab, ha, _⟩ := List.map_eq_append_iff.mp ht.symm
      have hane : a ≠ [] := by
        intro h0
        rw [h0] at ha
        exact hne (by simpa using ha.symm)
      have hl : unicode.IsSpace (a.getLast hane) = false := by
        by_contra hsp
        have hsp' : unicode.IsSpace (a.getLast hane) = true := by simpa using hsp
        have hup := unicode.ToUpper_of_IsSpace _ hsp'
        have h1 : (a.map unicode.ToUpper).getLast (by simpa using hane) =
            unicode.ToUpper (a.getLast hane) := List.getLast_map _ _ _
        have h2 : (a.map unicode.ToUpper).getLast (by simpa using hane) =
            keyword.data.getLast hne := by simp only [ha]
        rw [h1, hup] at h2
        rw [← h2, hsp'] at hlast
        exact Bool.noConfusion hlast
      have := prefix_rdropWhile_append unicode.IsSpace a b hane hl
      rw [hab]
      have hm := List.IsPrefix.map unicode.ToUpper this
      rwa [ha] at hm
  simp only [strings.HasPrefix, strings.ToUpper, strings.TrimSpace, beginsWith]
  rw [Bool.eq_iff_iff]
  simp only [List.isPrefixOf_iff_prefix]
  exact key

/-- The gate of `read-query` and `write-query` is the specification's test for
`SELECT`. -/
theorem gate_SELECT (q : String) :
    strings.HasPrefix (strings.ToUpper (strings.TrimSpace q)) "SELECT" =
      beginsWith q "SELECT" :=
  strings.HasPrefix_TrimSpace q "SELECT" (by decide) (by decide)

/-- The gate of `create-table` is the specification's test for
`CREATE TABLE`. -/
theorem gate_CREATE_TABLE (q : String) :
    strings.HasPrefix (strings.ToUpper (strings.TrimSpace q)) "CREATE TABLE" =
      beginsWith q "CREATE TABLE" :=
  strings.HasPrefix_TrimSpace q "CREATE TABLE" (by decide) (by decide)

/-- Every call of `ExecuteQuery` hands exactly its statement to the handle. -/
theorem SQLite.ExecuteQuery_executed {σ : Type} (D : sql.DB σ) (s : SQLite σ) (q : String)
    (params : List sql.Value) :
    (SQLite.ExecuteQuery D s q params).2.executed =
      s.executed ++ [Statement.query q params] := by
  unfold SQLite.ExecuteQuery
  dsimp only
  split
  · rfl
  · split <;> rfl

/-- Every call of `ExecuteWriteQuery` hands exactly its statement to the
handle. -/
theorem SQLite.ExecuteWriteQuery_executed {σ : Type} (D : sql.DB σ) (s : SQLite σ)
    (q : String) (params : List sql.Value) :
    (SQLite.ExecuteWriteQuery D s q params).2.executed =
      s.executed ++ [Statement.exec q params] := by
  unfold SQLite.ExecuteWriteQuery
  dsimp only
  split
  · rfl
  · split <;> rfl

/-- C4. `Call("read-query", q)` returns the error "only SELECT queries are
allowed for read-query" and leaves the backend as it was, nothing handed to the
database, whenever `q`, with leading white space removed and letters in upper
case, does not start with `SELECT`; every `q` that does start with `SELECT` in
that sense is handed to `ExecuteQuery` unchanged, whose outcome `Call` returns
(its error, or its rows as JSON text in the content wrapper), and the
statement handed to the database is `q` itself. -/
theorem SQLite.Call_read_query_gate {σ : Type} (D : sql.DB σ) (s : SQLite σ) (q : String) :
    SQLite.Call D s "read-query" q =
        (if beginsWith q "SELECT" then
          match SQLite.ExecuteQuery D s q [] with
          | (.error e, s1) => (Outcome.err e, s1)
          | (.ok results, s1) =>
            (Outcome.ok (SQLite.textContent (json.text (json.marshalRows results))), s1)
        else (Outcome.err "only SELECT queries are allowed for read-query", s)) ∧
      (SQLite.Call D s "read-query" q).2.executed =
        (if beginsWith q "SELECT" then s.executed ++ [Statement.query q []]
        else s.executed) ∧
      (SQLite.Call testStore freshSQLite "read-query" " \n select * FROM test_table").2.executed =
        [Statement.query " \n select * FROM test_table" []] ∧
      SQLite.Call testStore freshSQLite "read-query" "DROP TABLE test_table" =
        (Outcome.err "only SELECT queries are allowed for read-query", freshSQLite) := by
  have h : SQLite.Call D s "read-query" q =
        (if beginsWith q "SELECT" then
          match SQLite.ExecuteQuery D s q [] with
          | (.error e, s1) => (Outcome.err e, s1)
          | (.ok results, s1) =>
            (Outcome.ok (SQLite.textContent (json.text (json.marshalRows results))), s1)
        else (Outcome.err "only SELECT queries are allowed for read-query", s)) := by
    simp only [SQLite.Call, gate_SELECT, if_true]
    cases beginsWith q "SELECT" <;> simp
  refine ⟨h, ?_, rfl, rfl⟩
  rw [h]
  cases hb : beginsWith q "SELECT"
  · simp
  · simp only [if_true]
    have he := SQLite.ExecuteQuery_executed D s q []
    rcases hq : SQLite.ExecuteQuery D s q [] with ⟨r, s1⟩
    rw [hq] at he
    cases r <;> exact he

/-- The gate of `write-query`. `Call("write-query", q)` returns the error
"SELECT queries are not allowed for write-query" and hands nothing to the
database if and only if `q`, with leading white space removed and letters in
upper case, starts with `SELECT`; every other statement is handed to
`ExecuteWriteQuery` unchanged (an `Exec` on the handle), and `Call` ends the
way that call ends: with its error, with the text of its count, or in its
panic. -/
theorem SQLite.Call_write_query_outcome {σ : Type} (D : sql.DB σ) (s : SQLite σ)
    (q : String) :
    SQLite.Call D s "write-query" q =
        (if beginsWith q "SELECT" then
          (Outcome.err "SELECT queries are not allowed for write-query", s)
        else
          match SQLite.ExecuteWriteQuery D s q [] with
          | (.err e, s1) => (Outcome.err e, s1)
          | (.panic e, s1) => (Outcome.panic e, s1)
          | (.ok affected, s1) =>
            (Outcome.ok [("content", Any.str ("Affected rows: " ++ fmt.formatInt affected))],
              s1)) ∧
      (SQLite.Call D s "write-query" q).2.executed =
        (if beginsWith q "SELECT" then s.executed
        else s.executed ++ [Statement.exec q []]) ∧
      (((∃ e, (SQLite.Call D s "write-query" q).1 = Outcome.err e) ∧
          (SQLite.Call D s "write-query" q).2.executed = s.executed) ↔
        beginsWith q "SELECT" = true) := by
  have h : SQLite.Call D s "write-query" q =
        (if beginsWith q "SELECT" then
          (Outcome.err "SELECT queries are not allowed for write-query", s)
        else
          match SQLite.ExecuteWriteQuery D s q [] with
          | (.err e, s1) => (Outcome.err e, s1)
          | (.panic e, s1) => (Outcome.panic e, s1)
          | (.ok affected, s1) =>
            (Outcome.ok [("content", Any.str ("Affected rows: " ++ fmt.formatInt affected))],
              s1)) := by
    simp only [SQLite.Call, gate_SELECT]
    simp
  have hx : (SQLite.Call D s "write-query" q).2.executed =
        (if beginsWith q "SELECT" then s.executed
        else s.executed ++ [Statement.exec q []]) := by
    rw [h]
    cases hb : beginsWith q "SELECT"
    · simp only [Bool.false_eq_true, if_false]
      have he := SQLite.ExecuteWriteQuery_executed D s q []
      rcases hq : SQLite.ExecuteWriteQuery D s q [] with ⟨r, s1⟩
      rw [hq] at he
      cases r <;> exact he
    · simp
  refine ⟨h, hx, ?_⟩
  constructor
  · rintro ⟨_, hexec⟩
    rw [hx] at hexec
    cases hb : beginsWith q "SELECT"
    · rw [hb] at hexec
      simp at hexec
    · rfl
  · intro hb
    rw [h, hb]
    exact ⟨⟨_, rfl⟩, rfl⟩

/-- The gate of `write-query` at concrete statements: `INSERT` is handed to
the database and its count returned as text, a lower-case `select` is turned
away with nothing handed over. -/
theorem SQLite.Call_write_query_outcome_instances :
    SQLite.Call testStore freshSQLite "write-query"
        "INSERT INTO test_table (name) VALUES ('x')" =
      (Outcome.ok [("content", Any.str "Affected rows: 1")],
        { freshSQLite with
          executed := [Statement.exec "INSERT INTO test_table (name) VALUES ('x')" []] }) ∧
    SQLite.Call testStore freshSQLite "write-query" "  select 1" =
      (Outcome.err "SELECT queries are not allowed for write-query", freshSQLite) :=
  ⟨(SQLite.Call_write_query_outcome testStore freshSQLite
      "INSERT INTO test_table (name) VALUES ('x')").1.trans rfl,
   (SQLite.Call_write_query_outcome testStore freshSQLite "  select 1").1.trans rfl⟩

/-- C5, the failing input. The empty string does not start with `SELECT`, so
it passes the gate of `write-query` and is handed to `db.Exec`. The text holds
no statement and `db.Exec` answers a result with nothing behind it, on which
the unguarded `result.RowsAffected()` of `ExecuteWriteQuery` panics: `Call`
returns neither an error nor a count, the dispatcher sends no response for the
request (whose `query` argument may as well be absent), the goroutine is gone
and the `ping` that follows is never answered. -/
theorem SQLite.Call_write_query_empty_panics :
    beginsWith "" "SELECT" = false ∧
      (SQLite.Call testStore freshSQLite "write-query" "").1 =
        Outcome.panic "runtime error: invalid memory address or nil pointer dereference" ∧
      (SQLite.Call testStore freshSQLite "write-query" "").2.executed =
        [Statement.exec "" []] ∧
      (main.dispatch testStore noTools [] freshSQLite
        (request 11 "tools/call" "write-query" [])).replies = [] ∧
      (main.dispatch testStore noTools [] freshSQLite
        (request 11 "tools/call" "write-query" [])).alive = false ∧
      (main.loop testStore noTools (main.start freshSQLite)
        [request 11 "tools/call" "write-query" [("query", Any.str "")],
         request 12 "ping" "" []]).writeCh = [] := by
  refine ⟨by decide, rfl, rfl, rfl, rfl, rfl⟩

/-- C6. `Call("create-table", q)` returns the error "only CREATE TABLE
statements are allowed" and hands nothing to the database whenever `q`, with
leading white space removed and letters in upper case, does not start with
`CREATE TABLE`; when `q` passes the gate it is handed to `ExecuteWriteQuery`
unchanged, and when that succeeds the result is the fixed message
"Table created successfully", whatever the count of affected rows (when it
does not succeed, `Call` ends with its error or in its panic). -/
theorem SQLite.Call_create_table_gate {σ : Type} (D : sql.DB σ) (s : SQLite σ)
    (q : String) :
    SQLite.Call D s "create-table" q =
        (if beginsWith q "CREATE TABLE" then
          match SQLite.ExecuteWriteQuery D s q [] with
          | (.err e, s1) => (Outcome.err e, s1)
          | (.panic e, s1) => (Outcome.panic e, s1)
          | (.ok _, s1) => (Outcome.ok [("content", Any.str "Table created successfully")], s1)
        else (Outcome.err "only CREATE TABLE statements are allowed", s)) ∧
      (SQLite.Call D s "create-table" q).2.executed =
        (if beginsWith q "CREATE TABLE" then s.executed ++ [Statement.exec q []]
        else s.executed) ∧
      (SQLite.Call testStore freshSQLite "create-table"
          "CREATE TABLE t (id INTEGER PRIMARY KEY)").1 =
        Outcome.ok [("content", Any.str "Table created successfully")] ∧
      SQLite.Call testStore freshSQLite "create-table" "DROP TABLE test_table" =
        (Outcome.err "only CREATE TABLE statements are allowed", freshSQLite) := by
  have h : SQLite.Call D s "create-table" q =
        (if beginsWith q "CREATE TABLE" then
          match SQLite.ExecuteWriteQuery D s q [] with
          | (.err e, s1) => (Outcome.err e, s1)
          | (.panic e, s1) => (Outcome.panic e, s1)
          | (.ok _, s1) => (Outcome.ok [("content", Any.str "Table created successfully")], s1)
        else (Outcome.err "only CREATE TABLE statements are allowed", s)) := by
    simp only [SQLite.Call, gate_CREATE_TABLE]
    cases beginsWith q "CREATE TABLE" <;> simp
  refine ⟨h, ?_, rfl, rfl⟩
  rw [h]
  cases hb : beginsWith q "CREATE TABLE"
  · simp
  · simp only [if_true]
    have he := SQLite.ExecuteWriteQuery_executed D s q []
    rcases hq : SQLite.ExecuteWriteQuery D s q [] with ⟨r, s1⟩
    rw [hq] at he
    cases r <;> exact he

/-! ## The dispatcher -/

/-- The iteration for a `tools/call` message: `append-insight` is served from
the note log, every other tool name goes to `Call` with the `query`
argument. -/
theorem main.dispatch_tools_call {σ : Type} (D : sql.DB σ) (toolsjson : JSONRPCResponse)
    (insights : List String) (db : SQLite σ) (msg : JSONRPCMessage)
    (hm : msg.Method = "tools/call") :
    main.dispatch D toolsjson insights db msg =
      if msg.Params.Name = "append-insight" then
        ⟨insights ++ [stringArg msg.Params.Args "insight"], db,
          [main.response msg.ID
            (main.appendInsightResult (stringArg msg.Params.Args "insight"))], true⟩
      else
        match SQLite.Call D db msg.Params.Name (stringArg msg.Params.Args "query") with
        | (.err _, db1) => ⟨insights, db1, [], true⟩
        | (.panic _, db1) => ⟨insights, db1, [], false⟩
        | (.ok results, db1) =>
          ⟨insights, db1, [main.response msg.ID (Any.map results)], true⟩ := by
  unfold main.dispatch
  rw [hm]
  rw [if_neg (show ¬ (strings.HasPrefix "tools/call" "notifications/" = true) by decide),
    if_neg (show ¬ ("tools/call" = "ping") by decide),
    if_neg (show ¬ ("tools/call" = "initialize") by decide),
    if_neg (show ¬ ("tools/call" = "tools/list") by decide),
    if_neg (show ¬ ("tools/call" = "prompts/list") by decide),
    if_neg (show ¬ ("tools/call" = "prompts/get") by decide),
    if_neg (show ¬ ("tools/call" = "resources/list") by decide),
    if_neg (show ¬ ("tools/call" = "resources/read") by decide),
    if_neg (show ¬ ("tools/call" = "resources/write") by decide),
    if_pos rfl]

/-- The iteration for a `resources/read` message. -/
theorem main.dispatch_resources_read {σ : Type} (D : sql.DB σ) (toolsjson : JSONRPCResponse)
    (insights : List String) (db : SQLite σ) (msg : JSONRPCMessage)
    (hm : msg.Method = "resources/read") :
    main.dispatch D toolsjson insights db msg =
      ⟨insights, db, [main.response msg.ID (main.resourcesReadResult insights)], true⟩ := by
  unfold main.dispatch
  rw [hm]
  rw [if_neg (show ¬ (strings.HasPrefix "resources/read" "notifications/" = true) by decide),
    if_neg (show ¬ ("resources/read" = "ping") by decide),
    if_neg (show ¬ ("resources/read" = "initialize") by decide),
    if_neg (show ¬ ("resources/read" = "tools/list") by decide),
    if_neg (show ¬ ("resources/read" = "prompts/list") by decide),
    if_neg (show ¬ ("resources/read" = "prompts/get") by decide),
    if_neg (show ¬ ("resources/read" = "resources/list") by decide),
    if_pos rfl]

/-- The iteration for a message that is not a `tools/call`: the note log and
the backend stay as they were and the goroutine goes on. -/
theorem main.dispatch_other {σ : Type} (D : sql.DB σ) (toolsjson : JSONRPCResponse)
    (insights : List String) (db : SQLite σ) (msg : JSONRPCMessage)
    (hm : msg.Method ≠ "tools/call") :
    (main.dispatch D toolsjson insights db msg).insights = insights ∧
      (main.dispatch D toolsjson insights db msg).db = db ∧
      (main.dispatch D toolsjson insights db msg).alive = true ∧
      ((main.dispatch D toolsjson insights db msg).replies = [] ∨
        ∃ r, (main.dispatch D toolsjson insights db msg).replies = [r] ∧ r.ID = msg.ID) := by
  unfold main.dispatch
  by_cases h0 : strings.HasPrefix msg.Method "notifications/" = true
  · rw [if_pos h0]; exact ⟨rfl, rfl, rfl, Or.inl rfl⟩
  rw [if_neg h0]
  by_cases h1 : msg.Method = "ping"
  · rw [if_pos h1]; exact ⟨rfl, rfl, rfl, Or.inr ⟨_, rfl, rfl⟩⟩
  rw [if_neg h1]
  by_cases h2 : msg.Method = "initialize"
  · rw [if_pos h2]; exact ⟨rfl, rfl, rfl, Or.inr ⟨_, rfl, rfl⟩⟩
  rw [if_neg h2]
  by_cases h3 : msg.Method = "tools/list"
  · rw [if_pos h3]; exact ⟨rfl, rfl, rfl, Or.inr ⟨_, rfl, rfl⟩⟩
  rw [if_neg h3]
  by_cases h4 : msg.Method = "prompts/list"
  · rw [if_pos h4]; exact ⟨rfl, rfl, rfl, Or.inr ⟨_, rfl, rfl⟩⟩
  rw [if_neg h4]
  by_cases h5 : msg.Method = "prompts/get"
  · rw [if_pos h5]; exact ⟨rfl, rfl, rfl, Or.inr ⟨_, rfl, rfl⟩⟩
  rw [if_neg h5]
  by_cases h6 : msg.Method = "resources/list"
  · rw [if_pos h6]; exact ⟨rfl, rfl, rfl, Or.inr ⟨_, rfl, rfl⟩⟩
  rw [if_neg h6]
  by_cases h7 : msg.Method = "resources/read"
  · rw [if_pos h7]; exact ⟨rfl, rfl, rfl, Or.inr ⟨_, rfl, rfl⟩⟩
  rw [if_neg h7]
  by_cases h8 : msg.Method = "resources/write"
  · rw [if_pos h8]; exact ⟨rfl, rfl, rfl, Or.inl rfl⟩
  rw [if_neg h8, if_neg hm]
  exact ⟨rfl, rfl, rfl, Or.inl rfl⟩

/-- What one iteration sends: nothing, or one response that carries the
identifier of the message. -/
theorem main.dispatch_replies {σ : Type} (D : sql.DB σ) (toolsjson : JSONRPCResponse)
    (insights : List String) (db : SQLite σ) (msg : JSONRPCMessage) :
    (main.dispatch D toolsjson insights db msg).replies = [] ∨
      ∃ r, (main.dispatch D toolsjson insights db msg).replies = [r] ∧ r.ID = msg.ID := by
  by_cases hm : msg.Method = "tools/call"
  · rw [main.dispatch_tools_call D toolsjson insights db msg hm]
    by_cases hn : msg.Params.Name = "append-insight"
    · rw [if_pos hn]; exact Or.inr ⟨_, rfl, rfl⟩
    · rw [if_neg hn]
      rcases SQLite.Call D db msg.Params.Name (stringArg msg.Params.Args "query") with ⟨o, db1⟩
      cases o
      · exact Or.inr ⟨_, rfl, rfl⟩
      · exact Or.inl rfl
      · exact Or.inl rfl
  · exact (main.dispatch_other D toolsjson insights db msg hm).2.2.2

/-- The note log after one iteration: the `insight` argument appended for an
`append-insight` call, unchanged otherwise. -/
theorem main.dispatch_insights {σ : Type} (D : sql.DB σ) (toolsjson : JSONRPCResponse)
    (insights : List String) (db : SQLite σ) (msg : JSONRPCMessage) :
    (main.dispatch D toolsjson insights db msg).insights =
      if isAppendInsight msg then insights ++ [stringArg msg.Params.Args "insight"]
      else insights := by
  by_cases hm : msg.Method = "tools/call"
  · rw [main.dispatch_tools_call D toolsjson insights db msg hm]
    by_cases hn : msg.Params.Name = "append-insight"
    · rw [if_pos hn, if_pos (by simp [isAppendInsight, hm, hn])]
    · rw [if_neg hn, if_neg (by simp [isAppendInsight, hn])]
      rcases SQLite.Call D db msg.Params.Name (stringArg msg.Params.Args "query") with ⟨o, db1⟩
      cases o <;> rfl
  · rw [if_neg (by simp [isAppendInsight, hm])]
    exact (main.dispatch_other D toolsjson insights db msg hm).1

/-- A message whose method is a replying entry of the routing table other than
`tools/call` is not in a silent case. -/
theorem main.not_silent_of_method {σ : Type} (D : sql.DB σ) (db : SQLite σ)
    (msg : JSONRPCMessage) (m : String) (hm : msg.Method = m)
    (hpre : strings.HasPrefix m "notifications/" = false) (hw : m ≠ "resources/write")
    (hmem : m ∈ routingTable) (htc : m ≠ "tools/call") : ¬ silent D db msg := by
  rintro (h | h | h | ⟨h, _⟩)
  · rw [hm, hpre] at h
    exact Bool.noConfusion h
  · exact hw (hm ▸ h)
  · exact h (hm ▸ hmem)
  · exact htc (hm ▸ h)

/-- The iteration whenever the backend call, if one is made, returns. It sends
nothing when the method starts with `notifications/`, is `resources/write`, is
not in the routing table, or is a `tools/call` for another tool than
`append-insight` on which `Call` returns an error; in every other case it
sends exactly one response, with the identifier of the request. For
`tools/list` that response is the decoded catalog with the identifier
replaced. -/
theorem main.dispatch_response_count {σ : Type} (D : sql.DB σ) (toolsjson : JSONRPCResponse)
    (insights : List String) (db : SQLite σ) (msg : JSONRPCMessage)
    (hreturns : msg.Method = "tools/call" → msg.Params.Name ≠ "append-insight" → ∀ e,
      (SQLite.Call D db msg.Params.Name (stringArg msg.Params.Args "query")).1 ≠
        Outcome.panic e) :
    (silent D db msg → (main.dispatch D toolsjson insights db msg).replies = []) ∧
      (¬ silent D db msg →
        ∃ r, (main.dispatch D toolsjson insights db msg).replies = [r] ∧ r.ID = msg.ID) ∧
      (msg.Method = "tools/list" →
        (main.dispatch D toolsjson insights db msg).replies =
          [{ toolsjson with ID := msg.ID }]) ∧
      (main.dispatch D toolsjson insights db msg).alive = true := by
  by_cases htc : msg.Method = "tools/call"
  · rw [main.dispatch_tools_call D toolsjson insights db msg htc]
    have hnl : ¬ (msg.Method = "tools/list") := by rw [htc]; decide
    by_cases hn : msg.Params.Name = "append-insight"
    · rw [if_pos hn]
      refine ⟨?_, fun _ => ⟨_, rfl, rfl⟩, fun h => absurd h hnl, rfl⟩
      rintro (h | h | h | ⟨_, h, _⟩)
      · rw [htc] at h; exact absurd h (by decide)
      · rw [htc] at h; exact absurd h (by decide)
      · rw [htc] at h; exact absurd (by decide) h
      · exact absurd hn h
    · rw [if_neg hn]
      have hret := hreturns htc hn
      rcases hc : SQLite.Call D db msg.Params.Name (stringArg msg.Params.Args "query")
        with ⟨o, db1⟩
      rw [hc] at hret
      cases o with
      | ok v =>
        refine ⟨?_, fun _ => ⟨_, rfl, rfl⟩, fun h => absurd h hnl, rfl⟩
        rintro (h | h | h | ⟨_, _, e, h⟩)
        · rw [htc] at h; exact absurd h (by decide)
        · rw [htc] at h; exact absurd h (by decide)
        · rw [htc] at h; exact absurd (by decide) h
        · rw [hc] at h; exact Outcome.noConfusion h
      | err e =>
        refine ⟨fun _ => rfl, fun h => absurd ?_ h, fun h => absurd h hnl, rfl⟩
        exact Or.inr (Or.inr (Or.inr ⟨htc, hn, e, by rw [hc]⟩))
      | panic e => exact absurd rfl (hret e)
  · unfold main.dispatch
    by_cases h0 : strings.HasPrefix msg.Method "notifications/" = true
    · rw [if_pos h0]
      refine ⟨fun _ => rfl, fun h => absurd (Or.inl h0) h, fun h => ?_, rfl⟩
      rw [h] at h0; exact absurd h0 (by decide)
    rw [if_neg h0]
    by_cases h1 : msg.Method = "ping"
    · rw [if_pos h1]
      have hns := main.not_silent_of_method D db msg "ping" h1 (by decide) (by decide)
        (by decide) (by decide)
      refine ⟨fun h => absurd h hns, fun _ => ⟨_, rfl, rfl⟩, fun h => ?_, rfl⟩
      rw [h1] at h; exact absurd h (by decide)
    rw [if_neg h1]
    by_cases h2 : msg.Method = "initialize"
    · rw [if_pos h2]
      have hns := main.not_silent_of_method D db msg "initialize" h2 (by decide) (by decide)
        (by decide) (by decide)
      refine ⟨fun h => absurd h hns, fun _ => ⟨_, rfl, rfl⟩, fun h => ?_, rfl⟩
      rw [h2] at h; exact absurd h (by decide)
    rw [if_neg h2]
    by_cases h3 : msg.Method = "tools/list"
    · rw [if_pos h3]
      have hns := main.not_silent_of_method D db msg "tools/list" h3 (by decide) (by decide)
        (by decide) (by decide)
      exact ⟨fun h => absurd h hns, fun _ => ⟨_, rfl, rfl⟩, fun _ => rfl, rfl⟩
    rw [if_neg h3]
    by_cases h4 : msg.Method = "prompts/list"
    · rw [if_pos h4]
      have hns := main.not_silent_of_method D db msg "prompts/list" h4 (by decide) (by decide)
        (by decide) (by decide)
      exact ⟨fun h => absurd h hns, fun _ => ⟨_, rfl, rfl⟩, fun h => absurd h h3, rfl⟩
    rw [if_neg h4]
    by_cases h5 : msg.Method = "prompts/get"
    · rw [if_pos h5]
      have hns := main.not_silent_of_method D db msg "prompts/get" h5 (by decide) (by decide)
        (by decide) (by decide)
      exact ⟨fun h => absurd h hns, fun _ => ⟨_, rfl, rfl⟩, fun h => absurd h h3, rfl⟩
    rw [if_neg h5]
    by_cases h6 : msg.Method = "resources/list"
    · rw [if_pos h6]
      have hns := main.not_silent_of_method D db msg "resources/list" h6 (by decide)
        (by decide) (by decide) (by decide)
      exact ⟨fun h => absurd h hns, fun _ => ⟨_, rfl, rfl⟩, fun h => absurd h h3, rfl⟩
    rw [if_neg h6]
    by_cases h7 : msg.Method = "resources/read"
    · rw [if_pos h7]
      have hns := main.not_silent_of_method D db msg "resources/read" h7 (by decide)
        (by decide) (by decide) (by decide)
      exact ⟨fun h => absurd h hns, fun _ => ⟨_, rfl, rfl⟩, fun h => absurd h h3, rfl⟩
    rw [if_neg h7]
    by_cases h8 : msg.Method = "resources/write"
    · rw [if_pos h8]
      exact ⟨fun _ => rfl, fun h => absurd (Or.inr (Or.inl h8)) h, fun h => absurd h h3, rfl⟩
    rw [if_neg h8, if_neg htc]
    refine ⟨fun _ => rfl, fun h => absurd (Or.inr (Or.inr (Or.inl ?_))) h,
      fun h => absurd h h3, rfl⟩
    simp only [routingTable, List.mem_cons, List.mem_singleton, List.not_mem_nil, or_false]
    rintro (h | h | h | h | h | h | h | h | h)
    · exact h1 h
    · exact h2 h
    · exact h3 h
    · exact h4 h
    · exact h5 h
    · exact h6 h
    · exact h7 h
    · exact h8 h
    · exact htc h

/-- The response count at concrete requests: a `tools/list` with identifier 4
is answered by the catalog under identifier 4, and a `write-query` that the
gate rejects is answered by nothing. -/
theorem main.dispatch_response_count_witness :
    (main.dispatch testStore noTools [] freshSQLite (request 4 "tools/list" "" [])).replies =
        [{ noTools with ID := RequestID.number 4 }] ∧
      (main.dispatch testStore noTools [] freshSQLite
        (request 9 "tools/call" "write-query" [("query", Any.str "select 1")])).replies = [] :=
  ⟨(main.dispatch_response_count testStore noTools [] freshSQLite
      (request 4 "tools/list" "" []) (fun hm => absurd hm (by decide))).2.2.1 rfl,
   (main.dispatch_response_count testStore noTools [] freshSQLite
      (request 9 "tools/call" "write-query" [("query", Any.str "select 1")])
      (fun _ _ e h => Outcome.noConfusion h)).1
      (Or.inr (Or.inr (Or.inr ⟨rfl, by decide, _, rfl⟩)))⟩

/-- One message taken from the read channel adds nothing to the write channel,
or one response at its end that carries the identifier of the message. -/
theorem main.step_writeCh {σ : Type} (D : sql.DB σ) (toolsjson : JSONRPCResponse)
    (h : main.Hub σ) (msg : JSONRPCMessage) :
    (main.step D toolsjson h msg).writeCh = h.writeCh ∨
      ∃ r, (main.step D toolsjson h msg).writeCh = h.writeCh ++ [r] ∧ r.ID = msg.ID := by
  unfold main.step
  by_cases ha : h.alive = true
  · rw [if_pos ha]
    rcases main.dispatch_replies D toolsjson h.insights h.db msg with h0 | ⟨r, h1, hid⟩
    · left
      simp [h0]
    · right
      exact ⟨r, by simp [h1], hid⟩
  · rw [if_neg ha]
    exact Or.inl rfl

/-- Once the goroutine has panicked no message is taken any more. -/
theorem main.loop_dead {σ : Type} (D : sql.DB σ) (toolsjson : JSONRPCResponse)
    (h : main.Hub σ) (msgs : List JSONRPCMessage) (ha : h.alive = false) :
    main.loop D toolsjson h msgs = h := by
  induction msgs with
  | nil => rfl
  | cons m ms ih =>
    have hs : main.step D toolsjson h m = h := by
      unfold main.step
      rw [if_neg (by simp [ha])]
    show main.loop D toolsjson (main.step D toolsjson h m) ms = h
    rw [hs]
    exact ih

/-- While the goroutine runs, the note log grows by exactly the notes of the
`append-insight` calls it has taken. -/
theorem main.loop_insights {σ : Type} (D : sql.DB σ) (toolsjson : JSONRPCResponse)
    (msgs : List JSONRPCMessage) :
    ∀ h : main.Hub σ, (main.loop D toolsjson h msgs).alive = true →
      (main.loop D toolsjson h msgs).insights = h.insights ++ appendedNotes msgs := by
  induction msgs with
  | nil =>
    intro h _
    simp [main.loop, appendedNotes]
  | cons m ms ih =>
    intro h hal
    have hloop : main.loop D toolsjson h (m :: ms) =
        main.loop D toolsjson (main.step D toolsjson h m) ms := rfl
    rw [hloop] at hal ⊢
    have halive : h.alive = true := by
      by_contra hd
      have hd' : h.alive = false := by simpa using hd
      have hs : main.step D toolsjson h m = h := by
        unfold main.step
        rw [if_neg (by simp [hd'])]
      rw [hs, main.loop_dead D toolsjson h ms hd'] at hal
      rw [hal] at hd'
      exact Bool.noConfusion hd'
    rw [ih _ hal]
    have hstep : (main.step D toolsjson h m).insights =
        if isAppendInsight m then h.insights ++ [stringArg m.Params.Args "insight"]
        else h.insights := by
      unfold main.step
      rw [if_pos halive]
      exact main.dispatch_insights D toolsjson h.insights h.db m
    rw [hstep]
    cases hm : isAppendInsight m <;> simp [appendedNotes, List.filter_cons, hm]

/-- C3. The identifiers of the responses that the loop pushes onto the write
channel are, in order, the identifiers of the requests it answers; those
requests are a subsequence of the requests in arrival order; and the loop only
ever adds at the end of the write channel. So the response to a later request
never stands before the response to an earlier one: a slow `read-query` with
identifier 1 followed by a `ping` with identifier 2 gives the responses 1, 2. -/
theorem main.loop_response_order {σ : Type} (D : sql.DB σ) (toolsjson : JSONRPCResponse)
    (h : main.Hub σ) (msgs : List JSONRPCMessage) :
    ((main.loop D toolsjson h msgs).writeCh.map (fun r => r.ID) =
        h.writeCh.map (fun r => r.ID) ++
          (main.answered D toolsjson h msgs).map (fun m => m.ID)) ∧
      List.Sublist (main.answered D toolsjson h msgs) msgs ∧
      h.writeCh <+: (main.loop D toolsjson h msgs).writeCh ∧
      (main.loop testStore noTools (main.start freshSQLite)
          [request 1 "tools/call" "read-query" [("query", Any.str "SELECT * FROM test_table")],
           request 2 "ping" "" []]).writeCh.map (fun r => r.ID) =
        [RequestID.number 1, RequestID.number 2] := by
  refine ⟨?_, ?_, ?_, by decide⟩
  · induction msgs generalizing h with
    | nil => simp [main.loop, main.answered]
    | cons m ms ih =>
      have hloop : main.loop D toolsjson h (m :: ms) =
          main.loop D toolsjson (main.step D toolsjson h m) ms := rfl
      rw [hloop, ih]
      rcases main.step_writeCh D toolsjson h m with h0 | ⟨r, h1, hid⟩
      · simp [main.answered, h0]
      · have hlen : ¬ ((main.step D toolsjson h m).writeCh.length = h.writeCh.length) := by
          rw [h1]; simp
        simp [main.answered, hlen, h1, hid]
  · induction msgs generalizing h with
    | nil => simp [main.answered]
    | cons m ms ih =>
      unfold main.answered
      split
      · exact (ih _).trans (List.sublist_cons_self m ms)
      · exact (ih _).cons₂ m
  · induction msgs generalizing h with
    | nil => exact List.prefix_refl _
    | cons m ms ih =>
      have hloop : main.loop D toolsjson h (m :: ms) =
          main.loop D toolsjson (main.step D toolsjson h m) ms := rfl
      rw [hloop]
      refine List.IsPrefix.trans ?_ (ih _)
      rcases main.step_writeCh D toolsjson h m with h0 | ⟨r, h1, _⟩
      · rw [h0]
      · rw [h1]; exact List.prefix_append _ _

/-- C2, as stated, fails. After an `append-insight` call that carries no
`insight` argument and one that carries "b", `resources/read` returns a text
that begins with a newline, while the newline join of the `insight` arguments
of the earlier calls is "b". -/
theorem main.resources_read_missing_insight :
    ((main.loop testStore noTools (main.start freshSQLite)
        [request 1 "tools/call" "append-insight" [],
         request 2 "tools/call" "append-insight" [("insight", Any.str "b")],
         request 3 "resources/read" "" []]).writeCh.getLast?.bind resourceText =
        some "\nb") ∧
      joinedInsightArguments
        [request 1 "tools/call" "append-insight" [],
         request 2 "tools/call" "append-insight" [("insight", Any.str "b")]] = "b" ∧
      (main.loop testStore noTools (main.start freshSQLite)
        [request 1 "tools/call" "append-insight" [],
         request 2 "tools/call" "append-insight" [("insight", Any.str "b")],
         request 3 "resources/read" "" []]).writeCh.getLast?.bind resourceText ≠
        some (joinedInsightArguments
          [request 1 "tools/call" "append-insight" [],
           request 2 "tools/call" "append-insight" [("insight", Any.str "b")]]) := by
  refine ⟨by decide, by decide, by decide⟩

/-- C2, amended. Starting from the empty note log, after any sequence of
requests the dispatcher has processed, a `resources/read` request is answered
with one response whose text is the newline join of the notes of the earlier
`append-insight` calls in the order they were processed, where the note of a
call is its `insight` argument, or the empty string when that argument is
absent or not a string; the read leaves the note log as it was. No request
other than an `append-insight` call changes the note log, and every request
leaves the earlier entries in place, in order, at the front of the log. When
every earlier call carries a string `insight`, the text is the newline join of
those arguments. -/
theorem main.resources_read_joins_notes {σ : Type} (D : sql.DB σ)
    (toolsjson : JSONRPCResponse) (db : SQLite σ) (earlier : List JSONRPCMessage)
    (msg : JSONRPCMessage) (hm : msg.Method = "resources/read")
    (halive : (main.loop D toolsjson (main.start db) earlier).alive = true) :
    (main.loop D toolsjson (main.start db) earlier).insights = appendedNotes earlier ∧
      main.dispatch D toolsjson (main.loop D toolsjson (main.start db) earlier).insights
          (main.loop D toolsjson (main.start db) earlier).db msg =
        ⟨appendedNotes earlier, (main.loop D toolsjson (main.start db) earlier).db,
          [main.response msg.ID (main.resourcesReadResult (appendedNotes earlier))], true⟩ ∧
      resourceText (main.response msg.ID (main.resourcesReadResult (appendedNotes earlier))) =
        some (strings.Join (appendedNotes earlier) "\n") ∧
      (∀ (insights : List String) (db1 : SQLite σ) (m : JSONRPCMessage),
        insights <+: (main.dispatch D toolsjson insights db1 m).insights ∧
        (isAppendInsight m = false →
          (main.dispatch D toolsjson insights db1 m).insights = insights)) ∧
      ((∀ m ∈ earlier, isAppendInsight m = true → (insightArgument m).isSome = true) →
        strings.Join (appendedNotes earlier) "\n" = joinedInsightArguments earlier) := by
  have hins : (main.loop D toolsjson (main.start db) earlier).insights =
      appendedNotes earlier := by
    rw [main.loop_insights D toolsjson earlier (main.start db) halive]
    simp [main.start]
  refine ⟨hins, ?_, rfl, ?_, ?_⟩
  · rw [main.dispatch_resources_read D toolsjson _ _ msg hm, hins]
  · intro insights db1 m
    rw [main.dispatch_insights]
    cases isAppendInsight m
    · simp
    · simp
  · intro hall
    unfold joinedInsightArguments appendedNotes
    congr 1
    have : ∀ l : List JSONRPCMessage,
        (∀ m ∈ l, (insightArgument m).isSome = true) →
        l.map (fun m => stringArg m.Params.Args "insight") = l.filterMap insightArgument := by
      intro l
      induction l with
      | nil => intro _; rfl
      | cons a l ih =>
        intro hl
        have ha := hl a (List.mem_cons_self a l)
        have hrest := ih (fun m hmem => hl m (List.mem_cons_of_mem a hmem))
        unfold insightArgument at ha
        rw [List.map_cons, hrest]
        unfold stringArg
        rw [List.filterMap_cons]
        conv_rhs => unfold insightArgument
        split at ha
        · rename_i s heq
          simp only [heq]
          rfl
        · exact Bool.noConfusion ha
    apply this
    intro m hmem
    rw [List.mem_filter] at hmem
    exact hall m hmem.1 hmem.2

/-- The amended C2 at a concrete run: after appending "a" and then "b",
`resources/read` returns the text "a", newline, "b". -/
theorem main.resources_read_joins_notes_witness :
    (main.loop testStore noTools (main.start freshSQLite)
        [request 1 "tools/call" "append-insight" [("insight", Any.str "a")],
         request 2 "tools/call" "append-insight" [("insight", Any.str "b")]]).insights =
      ["a", "b"] ∧
    resourceText (main.response (RequestID.number 3) (main.resourcesReadResult
      (appendedNotes [request 1 "tools/call" "append-insight" [("insight", Any.str "a")],
         request 2 "tools/call" "append-insight" [("insight", Any.str "b")]]))) =
      some "a\nb" :=
  have h := main.resources_read_joins_notes testStore noTools freshSQLite
    [request 1 "tools/call" "append-insight" [("insight", Any.str "a")],
     request 2 "tools/call" "append-insight" [("insight", Any.str "b")]]
    (request 3 "resources/read" "" []) rfl (by decide)
  ⟨h.1.trans (by decide), h.2.2.1.trans (by decide)⟩

/-- C10. For a `tools/call` request whose tool name is not `append-insight`,
the iteration is determined by the outcome of `Call` on the tool name and the
`query` argument, the empty string standing for a `query` that is absent or
not a string: a result is sent back under the request's identifier, an error
sends nothing. Two such requests with the same identifier, tool name and
`query` are dispatched alike, whatever their other arguments. For
`describe-table` the table that `Call` describes is the `query` argument. -/
theorem main.dispatch_tool_call_query_only {σ : Type} (D : sql.DB σ)
    (toolsjson : JSONRPCResponse) (insights : List String) (db : SQLite σ)
    (msg : JSONRPCMessage) (hm : msg.Method = "tools/call")
    (hn : msg.Params.Name ≠ "append-insight") :
    (main.dispatch D toolsjson insights db msg =
        match SQLite.Call D db msg.Params.Name (stringArg msg.Params.Args "query") with
        | (.err _, db1) => ⟨insights, db1, [], true⟩
        | (.panic _, db1) => ⟨insights, db1, [], false⟩
        | (.ok results, db1) =>
          ⟨insights, db1, [main.response msg.ID (Any.map results)], true⟩) ∧
      (∀ other : JSONRPCMessage, other.Method = "tools/call" →
        other.Params.Name = msg.Params.Name → other.ID = msg.ID →
        stringArg other.Params.Args "query" = stringArg msg.Params.Args "query" →
        main.dispatch D toolsjson insights db other =
          main.dispatch D toolsjson insights db msg) ∧
      (msg.Params.Args.lookup "query" = none → stringArg msg.Params.Args "query" = "") ∧
      (∀ v, msg.Params.Args.lookup "query" = some v → (∀ s, v ≠ Any.str s) →
        stringArg msg.Params.Args "query" = "") ∧
      (∀ s, msg.Params.Args.lookup "query" = some (Any.str s) →
        stringArg msg.Params.Args "query" = s) ∧
      (∀ q : String, SQLite.Call D db "describe-table" q =
        match SQLite.DescribeTable D db q with
        | (.error e, db1) => (Outcome.err e, db1)
        | (.ok description, db1) => (Outcome.ok (SQLite.textContent description), db1)) := by
  have h1 := main.dispatch_tools_call D toolsjson insights db msg hm
  rw [if_neg hn] at h1
  refine ⟨h1, ?_, ?_, ?_, ?_, ?_⟩
  · intro other hmo hno hido hq
    have h2 := main.dispatch_tools_call D toolsjson insights db other hmo
    rw [if_neg (by rw [hno]; exact hn)] at h2
    rw [h1, h2, hno, hido, hq]
  · intro hnone
    unfold stringArg
    rw [hnone]
  · intro v hv hns
    unfold stringArg
    rw [hv]
    cases v with
    | str s => exact absurd rfl (hns s)
    | _ => rfl
  · intro s hs
    unfold stringArg
    rw [hs]
  · intro q
    unfold SQLite.Call
    rw [if_neg (show ¬ ("describe-table" = "read-query") by decide),
      if_neg (show ¬ ("describe-table" = "write-query") by decide),
      if_neg (show ¬ ("describe-table" = "create-table") by decide),
      if_neg (show ¬ ("describe-table" = "list-tables") by decide),
      if_pos rfl]

/-- C10 at a concrete request: a `describe-table` call whose `query` is
`test_table` and whose `table` argument names something else describes
`test_table`, exactly as the same call without the `table` argument. -/
theorem main.dispatch_tool_call_query_only_witness :
    main.dispatch testStore noTools [] freshSQLite
        (request 5 "tools/call" "describe-table" [("query", Any.str "test_table")]) =
      main.dispatch testStore noTools [] freshSQLite
        (request 5 "tools/call" "describe-table"
          [("table", Any.str "other"), ("query", Any.str "test_table")]) :=
  (main.dispatch_tool_call_query_only testStore noTools [] freshSQLite
    (request 5 "tools/call" "describe-table"
      [("table", Any.str "other"), ("query", Any.str "test_table")]) rfl (by decide)).2.1
    (request 5 "tools/call" "describe-table" [("query", Any.str "test_table")])
    rfl rfl rfl (by decide)

/-- C1, the failing input. The catalog holds a table row whose name is a blob.
A `tools/call` for `list-tables` makes `Call` neither return an error nor a
result: the unchecked assertion in `ListTables` panics, the iteration sends no
response, the goroutine is gone, and the `ping` that follows is never
answered. -/
theorem main.dispatch_list_tables_panics :
    (SQLite.Call blobNameStore freshSQLite "list-tables" "").1 =
        Outcome.panic "interface conversion: interface \x7b\x7d is []uint8, not string" ∧
      (main.dispatch blobNameStore noTools [] freshSQLite
        (request 7 "tools/call" "list-tables" [])).replies = [] ∧
      (main.dispatch blobNameStore noTools [] freshSQLite
        (request 7 "tools/call" "list-tables" [])).alive = false ∧
      (main.loop blobNameStore noTools (main.start freshSQLite)
        [request 7 "tools/call" "list-tables" [], request 8 "ping" "" []]).writeCh = [] := by
  refine ⟨rfl, rfl, rfl, rfl⟩

/-! ## The submit endpoint -/

/-- C7. `HandleMessage` answers 405 when the method is not POST; otherwise 400
when `session_id` is empty or `uuid.Parse` rejects it or the body does not
decode; otherwise 202 with an empty body. The decoded request is appended to
the read channel exactly when the answer is 202; with any other answer the
server is left as it was. -/
theorem SSEServer.HandleMessage_status (C : Codec) (s : SSEServer) (r : http.Request) :
    (r.Method ≠ "POST" →
        (SSEServer.HandleMessage C s r).1.status = 405) ∧
      (r.Method = "POST" →
        (r.queryGet "session_id" = "" ∨ C.uuidParse (r.queryGet "session_id") = false ∨
          (∃ e, C.decode r.Body = Except.error e)) →
        (SSEServer.HandleMessage C s r).1.status = 400) ∧
      (∀ message, r.Method = "POST" → r.queryGet "session_id" ≠ "" →
        C.uuidParse (r.queryGet "session_id") = true → C.decode r.Body = Except.ok message →
        SSEServer.HandleMessage C s r =
          (⟨202, ""⟩, { s with readCh := s.readCh ++ [message] })) ∧
      ((SSEServer.HandleMessage C s r).1.status = 202 ↔
        ∃ message, (SSEServer.HandleMessage C s r).2.readCh = s.readCh ++ [message]) ∧
      ((SSEServer.HandleMessage C s r).1.status ≠ 202 →
        (SSEServer.HandleMessage C s r).2 = s) ∧
      ((SSEServer.HandleMessage C s r).1.status = 405 ∨
        (SSEServer.HandleMessage C s r).1.status = 400 ∨
        (SSEServer.HandleMessage C s r).1.status = 202) := by
  unfold SSEServer.HandleMessage
  by_cases hp : r.Method = "POST"
  · rw [if_neg (not_not.mpr hp)]
    by_cases hs : r.queryGet "session_id" = ""
    · rw [if_pos hs]
      simp [http.Error, http.StatusBadRequest, hp, hs]
    · rw [if_neg hs]
      by_cases hu : C.uuidParse (r.queryGet "session_id") = false
      · rw [if_pos hu]
        simp [http.Error, http.StatusBadRequest, hp, hs, hu]
      · rw [if_neg hu]
        have hu' : C.uuidParse (r.queryGet "session_id") = true := by simpa using hu
        cases hd : C.decode r.Body with
        | error e => simp [http.Error, http.StatusBadRequest, hp, hs, hu']
        | ok message => simp [http.StatusAccepted, hp, hs, hu']
  · rw [if_pos hp]
    simp [http.Error, http.StatusMethodNotAllowed, hp]

/-! ## Rows and their JSON text -/

/-- A lookup in two lists one after the other. -/
theorem lookup_append_or {β : Type} (c : String) (l1 l2 : List (String × β)) :
    (l1 ++ l2).lookup c = (l1.lookup c).or (l2.lookup c) := by
  induction l1 with
  | nil => simp [List.lookup]
  | cons a l ih =>
    obtain ⟨k, b⟩ := a
    simp only [List.cons_append, List.lookup_cons]
    cases c == k
    · simpa using ih
    · simp

/-- A key that no entry bears is not found. -/
theorem lookup_eq_none_of_any_false {β : Type} (k : String) (l : List (String × β))
    (h : l.any (fun e => e.1 == k) = false) : l.lookup k = none := by
  induction l with
  | nil => rfl
  | cons a l ih =>
    obtain ⟨k1, b⟩ := a
    simp only [List.any_cons, Bool.or_eq_false_iff] at h
    have h1 : (k == k1) = false := by
      have := h.1
      simp only [beq_eq_false_iff_ne, ne_eq] at this ⊢
      exact fun e => this e.symm
    simp only [List.lookup_cons, h1]
    exact ih h.2

/-- The assignment `row[k] = v` changes the value under `k` and no other. -/
theorem Row.get_set (m : Row) (k : String) (v : sql.Value) (c : String) :
    (m.set k v).get c = if c = k then some v else m.get c := by
  unfold Row.set Row.get
  by_cases hany : m.entries.any (fun e => e.1 == k) = true
  · rw [if_pos hany]
    show List.lookup c (m.entries.map fun e => if (e.1 == k) = true then (k, v) else e) = _
    generalize m.entries = l at hany
    induction l with
    | nil => simp at hany
    | cons a l ih =>
      obtain ⟨k1, b⟩ := a
      by_cases hk : k1 = k
      · subst hk
        simp only [List.map_cons, beq_self_eq_true, if_true, List.lookup_cons]
        by_cases hc : c = k1
        · subst hc
          simp
        · have hc' : (c == k1) = false := by simpa using hc
          simp only [hc', if_neg hc]
          by_cases hany' : l.any (fun e => e.1 == k1) = true
          · rw [ih hany', if_neg hc]
          · have hl : ∀ e ∈ l, ¬ (e.1 = k1) := by
              intro e he heq
              exact hany' (List.any_eq_true.mpr ⟨e, he, by simp [heq]⟩)
            have hmap : l.map (fun e => if (e.1 == k1) = true then (k1, v) else e) = l := by
              conv_rhs => rw [← List.map_id l]
              apply List.map_congr_left
              intro e he
              have := hl e he
              simp [this]
            rw [hmap]
      · have hk' : (k1 == k) = false := by simpa using hk
        have hany' : l.any (fun e => e.1 == k) = true := by
          simpa [List.any_cons, hk'] using hany
        simp only [List.map_cons, hk', Bool.false_eq_true, if_false, List.lookup_cons]
        by_cases hc : c = k1
        · subst hc
          simp [hk]
        · have hc' : (c == k1) = false := by simpa using hc
          simp only [hc']
          exact ih hany'
  · rw [if_neg hany]
    have hany' : m.entries.any (fun e => e.1 == k) = false := Bool.eq_false_iff.mpr hany
    show List.lookup c (m.entries ++ [(k, v)]) = _
    rw [lookup_append_or]
    by_cases hc : c = k
    · subst hc
      rw [lookup_eq_none_of_any_false c _ hany']
      simp [List.lookup]
    · have hc' : (c == k) = false := by simpa using hc
      simp [List.lookup, hc', hc]

/-- Filling a row leaves under each name the value of the last column that
bears it. -/
theorem SQLite.fillRow_get (columns : List String) (values : List sql.Value) (name : String) :
    (SQLite.fillRow columns values).get name = lastValue columns values name := by
  unfold SQLite.fillRow lastValue
  have key : ∀ (ps : List (String × sql.Value)) (m : Row),
      (ps.foldl (fun row cv => row.set cv.1 cv.2) m).get name =
        (ps.reverse.lookup name).or (m.get name) := by
    intro ps
    induction ps with
    | nil => intro m; simp [List.lookup]
    | cons p ps ih =>
      intro m
      obtain ⟨k, v⟩ := p
      simp only [List.foldl_cons, List.reverse_cons]
      rw [ih, Row.get_set, lookup_append_or]
      by_cases hc : name = k
      · subst hc
        cases List.lookup name ps.reverse <;> simp [List.lookup]
      · have hc' : (name == k) = false := by simpa using hc
        cases List.lookup name ps.reverse <;> simp [List.lookup, hc', hc]
  rw [key]
  simp [Row.get, Row.empty, List.lookup]

/-- With keys that do not repeat, an entry of the list is what the lookup of
its key finds. -/
theorem lookup_of_mem_of_nodup {β : Type} (l : List (String × β))
    (hnd : (l.map Prod.fst).Nodup) (k : String) (v : β) (hmem : (k, v) ∈ l) :
    l.lookup k = some v := by
  induction l with
  | nil => simp at hmem
  | cons a l ih =>
    obtain ⟨k1, b⟩ := a
    simp only [List.map_cons, List.nodup_cons, List.mem_map, not_exists, not_and] at hnd
    rcases List.mem_cons.mp hmem with heq | hin
    · cases heq
      simp
    · have hne : k ≠ k1 := by
        intro e
        subst e
        exact hnd.1 (k, v) hin rfl
      have hne' : (k == k1) = false := by simpa using hne
      simp only [List.lookup_cons, hne']
      exact ih hnd.2 hin

/-- With column names that do not repeat, the value of the last column named
like the `j`-th column is the `j`-th value. -/
theorem lastValue_of_nodup (columns : List String) (values : List sql.Value)
    (hnd : columns.Nodup) (hlen : values.length = columns.length) (j : Nat)
    (hj : j < columns.length) (hv : j < values.length) :
    lastValue columns values columns[j] = some values[j] := by
  unfold lastValue
  apply lookup_of_mem_of_nodup
  · rw [List.map_reverse, List.nodup_reverse, List.map_fst_zip _ _ (by omega)]
    exact hnd
  · rw [List.mem_reverse]
    have hz : j < (columns.zip values).length := by simp; omega
    have := List.getElem_mem hz
    rwa [List.getElem_zip] at this

/-- The scan loop over rows that all have as many values as there are columns
appends one filled row per row, in order. -/
theorem SQLite.scanLoop_ok (columns : List String) (rows : List (List sql.Value))
    (harity : ∀ r ∈ rows, r.length = columns.length) (results : List Row) :
    SQLite.scanLoop columns rows results =
      Except.ok (results ++ rows.map (SQLite.fillRow columns)) := by
  induction rows generalizing results with
  | nil => simp [SQLite.scanLoop]
  | cons r rows ih =>
    have hr := harity r (List.mem_cons_self r rows)
    unfold SQLite.scanLoop
    rw [if_neg (by simp [hr])]
    rw [ih (fun r' h' => harity r' (List.mem_cons_of_mem r h'))]
    simp

/-- The method `ExecuteQuery` on a statement for which the handle answers a
cursor with the given columns and rows. -/
theorem SQLite.ExecuteQuery_rows {σ : Type} (D : sql.DB σ) (s : SQLite σ) (q : String)
    (params : List sql.Value) (columns : List String) (rows : List (List sql.Value))
    (hq : (D.Query s.db q params).1 = Except.ok ⟨Except.ok columns, rows⟩)
    (harity : ∀ r ∈ rows, r.length = columns.length) :
    SQLite.ExecuteQuery D s q params =
      (Except.ok (rows.map (SQLite.fillRow columns)),
        { s with db := (D.Query s.db q params).2,
                 executed := s.executed ++ [Statement.query q params] }) := by
  unfold SQLite.ExecuteQuery
  simp only [hq]
  rw [SQLite.scanLoop_ok columns rows harity]
  simp

/-- Go's string order is asymmetric. -/
theorem json.ltBytes_asymm : ∀ a b : List Char,
    json.ltBytes a b = true → json.ltBytes b a = false := by
  intro a
  induction a with
  | nil => intro b _; cases b <;> rfl
  | cons x xs ih =>
    intro b h
    cases b with
    | nil => simp [json.ltBytes] at h
    | cons y ys =>
      simp only [json.ltBytes, Bool.or_eq_true, decide_eq_true_eq, Bool.and_eq_true,
        beq_iff_eq] at h
      simp only [json.ltBytes, Bool.or_eq_false_iff, decide_eq_false_iff_not,
        Bool.and_eq_false_imp, beq_iff_eq]
      rcases h with h | ⟨h1, h2⟩
      · exact ⟨by omega, fun e => by omega⟩
      · exact ⟨by omega, fun _ => ih ys h2⟩

/-- In Go's string order, nothing below `e` lies above something not below
`e`: if `e ≤ x` and `x ≤ y` then `e ≤ y`. -/
theorem json.ltBytes_trans : ∀ e x y : List Char,
    json.ltBytes x e = false → json.ltBytes y x = false → json.ltBytes y e = false := by
  intro e
  induction e with
  | nil =>
    intro x y _ _
    cases y <;> rfl
  | cons c cs ih =>
    intro x y h1 h2
    cases x with
    | nil => simp [json.ltBytes] at h1
    | cons a as =>
      cases y with
      | nil => simp [json.ltBytes] at h2
      | cons b bs =>
        simp only [json.ltBytes, Bool.or_eq_false_iff, decide_eq_false_iff_not,
          Bool.and_eq_false_imp, beq_iff_eq] at h1 h2 ⊢
        refine ⟨by omega, fun hbc => ?_⟩
        have hac : a.toNat = c.toNat := by omega
        have hba : b.toNat = a.toNat := by omega
        exact ih as bs (h1.2 hac) (h2.2 hba)

/-- Inserting an entry into a list sorted by key keeps it sorted and adds
exactly that entry. -/
theorem json.insertKey_sorted (e : String × sql.Value) (l : List (String × sql.Value))
    (hs : l.Pairwise fun a b => json.ltBytes b.1.data a.1.data = false) :
    (json.insertKey e l).Pairwise (fun a b => json.ltBytes b.1.data a.1.data = false) ∧
      (json.insertKey e l).Perm (e :: l) := by
  induction l with
  | nil => exact ⟨by simp [json.insertKey], List.Perm.refl _⟩
  | cons x xs ih =>
    rw [List.pairwise_cons] at hs
    have ⟨ihs, ihp⟩ := ih hs.2
    unfold json.insertKey
    by_cases hlt : json.ltBytes x.1.data e.1.data = true
    · rw [if_pos hlt]
      refine ⟨?_, ?_⟩
      · rw [List.pairwise_cons]
        refine ⟨fun y hy => ?_, ihs⟩
        rcases List.mem_cons.mp (ihp.subset hy) with hye | hyx
        · rw [hye]
          exact json.ltBytes_asymm _ _ hlt
        · exact hs.1 y hyx
      · exact (List.Perm.cons x ihp).trans (List.Perm.swap e x xs)
    · rw [if_neg hlt]
      have hlt' : json.ltBytes x.1.data e.1.data = false := Bool.eq_false_iff.mpr hlt
      refine ⟨?_, List.Perm.refl _⟩
      rw [List.pairwise_cons]
      refine ⟨fun y hy => ?_, List.pairwise_cons.mpr hs⟩
      rcases List.mem_cons.mp hy with hyx | hyxs
      · rw [hyx]; exact hlt'
      · exact json.ltBytes_trans _ _ _ hlt' (hs.1 y hyxs)

/-- The entries of a map as `encoding/json` writes them are the entries of the
map, sorted by key. -/
theorem json.sortKeys_sorted (m : Row) :
    (json.sortKeys m).Pairwise (fun a b => json.ltBytes b.1.data a.1.data = false) ∧
      (json.sortKeys m).Perm m.entries := by
  unfold json.sortKeys
  induction m.entries with
  | nil => exact ⟨List.Pairwise.nil, List.Perm.refl _⟩
  | cons e l ih =>
    rw [List.foldr_cons]
    have h := json.insertKey_sorted e _ ih.1
    exact ⟨h.1, h.2.trans (List.Perm.cons e ih.2)⟩

/-- The assignment `row[k] = v` adds no entry but `(k, v)`. -/
theorem Row.mem_set (m : Row) (k : String) (v : sql.Value) (e : String × sql.Value)
    (he : e ∈ (m.set k v).entries) : e ∈ m.entries ∨ e = (k, v) := by
  unfold Row.set at he
  split at he
  · obtain ⟨a, ha, hae⟩ := List.mem_map.mp he
    split at hae
    · exact Or.inr hae.symm
    · exact Or.inl (hae ▸ ha)
  · rcases List.mem_append.mp he with h | h
    · exact Or.inl h
    · exact Or.inr (by simpa using h)

/-- A filled row holds no value but those of the scanned row. -/
theorem SQLite.fillRow_values (columns : List String) (values : List sql.Value)
    (e : String × sql.Value) (he : e ∈ (SQLite.fillRow columns values).entries) :
    e.2 ∈ values := by
  unfold SQLite.fillRow at he
  have key : ∀ (ps : List (String × sql.Value)) (m : Row),
      (∀ p ∈ ps, p.2 ∈ values) → (∀ x ∈ m.entries, x.2 ∈ values) →
      ∀ x ∈ (ps.foldl (fun row cv => row.set cv.1 cv.2) m).entries, x.2 ∈ values := by
    intro ps
    induction ps with
    | nil => intro m _ hm x hx; exact hm x hx
    | cons p ps ih =>
      intro m hps hm x hx
      rw [List.foldl_cons] at hx
      refine ih (m.set p.1 p.2) (fun p' hp' => hps p' (List.mem_cons_of_mem p hp')) ?_ x hx
      intro y hy
      rcases Row.mem_set m p.1 p.2 y hy with h | h
      · exact hm y h
      · rw [h]
        exact hps p (List.mem_cons_self p ps)
  refine key (columns.zip values) Row.empty ?_ ?_ e he
  · intro p hp
    exact (List.of_mem_zip (a := p.1) (b := p.2) hp).2
  · intro x hx
    simp [Row.empty] at hx

/-- The members of an object are written when each of its values can be. -/
theorem json.marshalMembers_of_encodable (l : List (String × sql.Value))
    (h : ∀ e ∈ l, json.encodable e.2 = true) : ∃ ts, json.marshalMembers l = some ts := by
  induction l with
  | nil => exact ⟨[], rfl⟩
  | cons a l ih =>
    obtain ⟨k, v⟩ := a
    obtain ⟨ts, hts⟩ := ih (fun e he => h e (List.mem_cons_of_mem _ he))
    have hv : ∃ t, json.marshalValue v = some t := by
      have hk := h (k, v) (List.mem_cons_self _ _)
      cases v with
      | null => exact ⟨_, rfl⟩
      | integer n => exact ⟨_, rfl⟩
      | real t =>
        cases t with
        | none => exact Bool.noConfusion hk
        | some t => exact ⟨t, rfl⟩
      | text s => exact ⟨_, rfl⟩
      | blob b => cases b <;> exact ⟨_, rfl⟩
      | time t =>
        cases t with
        | none => exact Bool.noConfusion hk
        | some t => exact ⟨t, rfl⟩
    obtain ⟨t, ht⟩ := hv
    exact ⟨(json.quote k ++ ":" ++ t) :: ts, by simp [json.marshalMembers, ht, hts]⟩

/-- A row is written as an object when each of its values can be written. -/
theorem json.marshalRow_of_encodable (m : Row)
    (h : ∀ e ∈ m.entries, json.encodable e.2 = true) : ∃ t, json.marshalRow m = some t := by
  obtain ⟨ts, hts⟩ := json.marshalMembers_of_encodable (json.sortKeys m)
    (fun e he => h e ((json.sortKeys_sorted m).2.subset he))
  exact ⟨"\x7b" ++ json.joinComma ts ++ "\x7d", by simp [json.marshalRow, hts]⟩

/-- A sequence of rows that can each be written is written element by
element. -/
theorem json.marshalRowList_of_encodable (ms : List Row)
    (h : ∀ m ∈ ms, ∃ t, json.marshalRow m = some t) :
    ∃ elems, json.marshalRowList ms = some elems ∧
      ms.map json.marshalRow = elems.map some := by
  induction ms with
  | nil => exact ⟨[], rfl, rfl⟩
  | cons m ms ih =>
    obtain ⟨elems, he, hmap⟩ := ih (fun m' hm' => h m' (List.mem_cons_of_mem _ hm'))
    obtain ⟨t, ht⟩ := h m (List.mem_cons_self _ _)
    exact ⟨t :: elems, by simp [json.marshalRowList, ht, he], by simp [ht, hmap]⟩

/-- C8, as stated, fails. `SELECT 1 AS a, 2 AS a` passes the gate and yields
one row (1, 2) over two columns that are both named `a`. The mapping returned
for that row holds a single entry, `a` to 2: it does not send the name of the
first column to the first column's value, 1. Besides, a query that yields no
row is answered with the text `null`, and a query that yields an infinite
float with the empty text: neither is the JSON text of a sequence. -/
theorem SQLite.read_query_duplicate_column_names :
    beginsWith "SELECT 1 AS a, 2 AS a" "SELECT" = true ∧
      (testStore.Query () "SELECT 1 AS a, 2 AS a" []).1 =
        Except.ok ⟨Except.ok ["a", "a"], [[sql.Value.integer 1, sql.Value.integer 2]]⟩ ∧
      (SQLite.ExecuteQuery testStore freshSQLite "SELECT 1 AS a, 2 AS a" []).1 =
        Except.ok [⟨[("a", sql.Value.integer 2)]⟩] ∧
      (⟨[("a", sql.Value.integer 2)]⟩ : Row).get "a" ≠ some (sql.Value.integer 1) ∧
      (SQLite.Call testStore freshSQLite "read-query" "SELECT 1 AS a, 2 AS a").1 =
        Outcome.ok (SQLite.textContent "[\x7b\"a\":2\x7d]") ∧
      (SQLite.Call testStore freshSQLite "read-query"
          "SELECT * FROM test_table WHERE id > 2").1 =
        Outcome.ok (SQLite.textContent "null") ∧
      (SQLite.Call testStore freshSQLite "read-query" "SELECT 9e999 AS x").1 =
        Outcome.ok (SQLite.textContent "") := by
  refine ⟨by decide, rfl, rfl, by decide, rfl, rfl, rfl⟩

/-- C8, amended. For a statement accepted by the `read-query` gate whose
execution yields `n` rows (`n` may be 0) over the columns `c1..ck`,
`ExecuteQuery` returns exactly `n` mappings in row order; the `i`-th mapping
sends each column name to the `i`-th row's value for the last column that
bears that name (to the value for that very column when the column names are
distinct) and holds no other key. When there is at least one row and every
value can be written by `encoding/json`, `Call("read-query")` returns the
content wrapper with one text item whose text is the JSON array of those `n`
mappings in order, each written as `json.Marshal` writes it. What the text is
with no row, or with a value that cannot be written, is not stated. -/
theorem SQLite.read_query_rows {σ : Type} (D : sql.DB σ) (s : SQLite σ) (q : String)
    (columns : List String) (rows : List (List sql.Value))
    (hgate : beginsWith q "SELECT" = true)
    (hq : (D.Query s.db q []).1 = Except.ok ⟨Except.ok columns, rows⟩)
    (harity : ∀ r ∈ rows, r.length = columns.length) :
    (SQLite.ExecuteQuery D s q []).1 = Except.ok (rows.map (SQLite.fillRow columns)) ∧
      (rows.map (SQLite.fillRow columns)).length = rows.length ∧
      (∀ r ∈ rows, ∀ name : String,
        (SQLite.fillRow columns r).get name = lastValue columns r name) ∧
      (columns.Nodup → ∀ r ∈ rows, ∀ (j : Nat) (hj : j < columns.length) (hr : j < r.length),
        (SQLite.fillRow columns r).get columns[j] = some r[j]) ∧
      (∀ r ∈ rows, ∀ name : String, name ∉ columns →
        (SQLite.fillRow columns r).get name = none) ∧
      (rows ≠ [] → (∀ r ∈ rows, ∀ v ∈ r, json.encodable v = true) →
        ∃ elems : List String,
          (rows.map (SQLite.fillRow columns)).map json.marshalRow = elems.map some ∧
          elems.length = rows.length ∧
          (SQLite.Call D s "read-query" q).1 =
            Outcome.ok (SQLite.textContent ("[" ++ json.joinComma elems ++ "]"))) := by
  have hex := SQLite.ExecuteQuery_rows D s q [] columns rows hq harity
  have hcall : (SQLite.Call D s "read-query" q).1 =
      Outcome.ok (SQLite.textContent
        (json.text (json.marshalRows (rows.map (SQLite.fillRow columns))))) := by
    unfold SQLite.Call
    rw [if_pos rfl, gate_SELECT, hgate]
    simp only [Bool.not_true, Bool.false_eq_true, if_false]
    rw [hex]
  refine ⟨by rw [hex], by simp, ?_, ?_, ?_, ?_⟩
  · intro r _ name
    exact SQLite.fillRow_get columns r name
  · intro hnd r hr j hj hjr
    rw [SQLite.fillRow_get]
    exact lastValue_of_nodup columns r hnd (harity r hr) j hj hjr
  · intro r _ name hname
    rw [SQLite.fillRow_get]
    unfold lastValue
    cases hl : List.lookup name (columns.zip r).reverse with
    | none => rfl
    | some v =>
      exfalso
      obtain ⟨l1, l2, hsplit, _⟩ := List.lookup_eq_some_iff.mp hl
      have hmem : (name, v) ∈ (columns.zip r).reverse := by
        rw [hsplit]
        simp
      exact hname (List.of_mem_zip (List.mem_reverse.mp hmem)).1
  · intro hne henc
    have hrowsok : ∀ m ∈ rows.map (SQLite.fillRow columns), ∃ t, json.marshalRow m = some t := by
      intro m hm
      obtain ⟨r, hr, hrm⟩ := List.mem_map.mp hm
      subst hrm
      exact json.marshalRow_of_encodable _
        (fun e he => henc r hr e.2 (SQLite.fillRow_values columns r e he))
    obtain ⟨elems, hlist, hmap⟩ := json.marshalRowList_of_encodable _ hrowsok
    have hlen : elems.length = rows.length := by
      have := congrArg List.length hmap
      simpa using this.symm
    refine ⟨elems, hmap, hlen, ?_⟩
    rw [hcall]
    cases rows with
    | nil => exact absurd rfl hne
    | cons r rs =>
      rw [List.map_cons] at hlist ⊢
      simp only [json.marshalRows, hlist, Option.map_some', json.text, Option.getD_some]

/-- The amended C8 on the database of the test: after the rows `test1` and
`test2` have been inserted, `SELECT * FROM test_table` returns two mappings,
the first with name `test1` and the second with name `test2`, and the text of
`Call("read-query")` is their JSON array; a query that selects none of the
rows returns no mapping. -/
theorem SQLite.read_query_rows_witness :
    (SQLite.ExecuteQuery testStore freshSQLite "SELECT * FROM test_table" []).1 =
        Except.ok [⟨[("id", sql.Value.integer 1), ("name", sql.Value.text "test1")]⟩,
          ⟨[("id", sql.Value.integer 2), ("name", sql.Value.text "test2")]⟩] ∧
      (∃ elems : List String,
        elems.length = 2 ∧
        (SQLite.Call testStore freshSQLite "read-query" "SELECT * FROM test_table").1 =
          Outcome.ok (SQLite.textContent ("[" ++ json.joinComma elems ++ "]"))) ∧
      (SQLite.Call testStore freshSQLite "read-query" "SELECT * FROM test_table").1 =
        Outcome.ok (SQLite.textContent
          "[\x7b\"id\":1,\"name\":\"test1\"\x7d,\x7b\"id\":2,\"name\":\"test2\"\x7d]") ∧
      (SQLite.ExecuteQuery testStore freshSQLite "SELECT * FROM test_table WHERE id > 2" []).1 =
        Except.ok [] :=
  have h := SQLite.read_query_rows testStore freshSQLite "SELECT * FROM test_table"
    ["id", "name"]
    [[sql.Value.integer 1, sql.Value.text "test1"], [sql.Value.integer 2, sql.Value.text "test2"]]
    (by decide) rfl (by decide)
  have h0 := SQLite.read_query_rows testStore freshSQLite
    "SELECT * FROM test_table WHERE id > 2" ["id", "name"] [] (by decide) rfl (by decide)
  ⟨h.1.trans rfl,
    (h.2.2.2.2.2 (by decide) (by decide)).imp fun _ he => ⟨he.2.1, he.2.2⟩,
    rfl, h0.1⟩

/-- C9. `DescribeTable` runs `PRAGMA table_info(<table>)` through
`ExecuteQuery`. An error of that query is returned as the error; no rows give
the empty string and no error; otherwise the result is the text that
`json.Marshal` writes for the first row alone, whatever rows follow it: a JSON
object whose members are the entries of that row sorted by key. For the table
`test_table (id INTEGER PRIMARY KEY, name TEXT NOT NULL)` this is the
descriptor of the column `id`. -/
theorem SQLite.DescribeTable_first_row {σ : Type} (D : sql.DB σ) (s : SQLite σ)
    (table : String) :
    (∀ e s1, SQLite.ExecuteQuery D s ("PRAGMA table_info(" ++ table ++ ")") [] =
        (Except.error e, s1) → SQLite.DescribeTable D s table = (Except.error e, s1)) ∧
      (∀ s1, SQLite.ExecuteQuery D s ("PRAGMA table_info(" ++ table ++ ")") [] =
        (Except.ok [], s1) → SQLite.DescribeTable D s table = (Except.ok "", s1)) ∧
      (∀ first rest s1, SQLite.ExecuteQuery D s ("PRAGMA table_info(" ++ table ++ ")") [] =
        (Except.ok (first :: rest), s1) →
        SQLite.DescribeTable D s table = (Except.ok (json.text (json.marshalRow first)), s1)) ∧
      (∀ e, (D.Query s.db ("PRAGMA table_info(" ++ table ++ ")") []).1 = Except.error e →
        (SQLite.DescribeTable D s table).1 = Except.error ("query execution error: " ++ e)) ∧
      (∀ columns, (D.Query s.db ("PRAGMA table_info(" ++ table ++ ")") []).1 =
          Except.ok ⟨Except.ok columns, []⟩ →
        (SQLite.DescribeTable D s table).1 = Except.ok "") ∧
      (∀ columns first rest,
        (D.Query s.db ("PRAGMA table_info(" ++ table ++ ")") []).1 =
          Except.ok ⟨Except.ok columns, first :: rest⟩ →
        (∀ r ∈ first :: rest, r.length = columns.length) →
        (SQLite.DescribeTable D s table).1 =
          Except.ok (json.text (json.marshalRow (SQLite.fillRow columns first)))) ∧
      (∀ m : Row,
        (json.sortKeys m).Pairwise (fun a b => json.ltBytes b.1.data a.1.data = false) ∧
        (json.sortKeys m).Perm m.entries) ∧
      (∀ (m : Row) (members : List String),
        json.marshalMembers (json.sortKeys m) = some members →
        json.text (json.marshalRow m) = "\x7b" ++ json.joinComma members ++ "\x7d") ∧
      (SQLite.DescribeTable testStore freshSQLite "test_table").1 = Except.ok
        ("\x7b\"cid\":0,\"dflt_value\":null,\"name\":\"id\",\"notnull\":0," ++
          "\"pk\":1,\"type\":\"INTEGER\"\x7d") := by
  refine ⟨?_, ?_, ?_, ?_, ?_, ?_, json.sortKeys_sorted, ?_, rfl⟩
  · intro e s1 h
    unfold SQLite.DescribeTable
    rw [h]
  · intro s1 h
    unfold SQLite.DescribeTable
    rw [h]
  · intro first rest s1 h
    unfold SQLite.DescribeTable
    rw [h]
  · intro e h
    unfold SQLite.DescribeTable SQLite.ExecuteQuery
    simp only [h]
  · intro columns h
    unfold SQLite.DescribeTable
    rw [SQLite.ExecuteQuery_rows D s _ [] columns [] h (by simp)]
    rfl
  · intro columns first rest h harity
    unfold SQLite.DescribeTable
    rw [SQLite.ExecuteQuery_rows D s _ [] columns (first :: rest) h harity]
    rfl
  · intro m members h
    unfold json.marshalRow
    rw [h]
    rfl
